import Mathlib

/-!
Verification development for the pattern-reco backtesting engine.

The Python modules under src/ are shallowly embedded here:

* prices and all float quantities are modelled as exact rationals;
* pandas NaN propagation is modelled with Option (none = NaN), following
  the design note that undefined values are explicit optionals;
* a DataFrame indexed by a DatetimeIndex is modelled positionally: the
  date of a row is its index position (a natural number), which is
  faithful because the index is strictly increasing;
* Python dicts keep insertion order, so a dict is an association list.
-/

namespace PatternReco

/-! ## Generic list helpers shared by the embedded modules -/

/-- Lexicographic strict order on lists of characters, by code point.
This is how Python compares strings. -/
def charsLt : List Char → List Char → Bool
  | [], [] => false
  | [], _ :: _ => true
  | _ :: _, [] => false
  | a :: as, b :: bs =>
    if a.toNat < b.toNat then true
    else if b.toNat < a.toNat then false
    else charsLt as bs

/-- Python string comparison, as used for symbol-name tie-breaks. -/
def strLt (a b : String) : Bool := charsLt a.data b.data

/-- Insert an element into a list that is already sorted for the strict
comes-before test, placing it after every element it does not strictly
precede.  Combined with a left fold this is a stable sort, which is the
behaviour of Python sorted / list.sort. -/
def insertBefore (before : α → α → Bool) (y : α) : List α → List α
  | [] => [y]
  | x :: xs => if before y x then y :: x :: xs else x :: insertBefore before y xs

/-- Stable sort: elements are processed left to right and each is placed
after all already-placed elements it does not strictly precede, so equal
elements keep their input order. -/
def stableSort (before : α → α → Bool) (l : List α) : List α :=
  l.foldl (fun acc y => insertBefore before y acc) []

/-- Median of a list of rationals as pandas computes it on a nonempty
series: sort, take the middle element, or the mean of the two middle
elements when the length is even.  (Callers guard against empty input;
the value at [] is the junk value 0.) -/
def median (l : List ℚ) : ℚ :=
  let s := stableSort (fun a b => decide (a < b)) l
  let n := l.length
  if n % 2 = 1 then s.getD (n / 2) 0
  else (s.getD (n / 2 - 1) 0 + s.getD (n / 2) 0) / 2

/-! ## src/core/backtest.py -/

/-- One OHLC price bar; only the Open and Close columns are read by the
backtester. -/
structure Bar where
  openPrice : ℚ
  closePrice : ℚ
  deriving Repr, DecidableEq, Inhabited

/-- The execution.slippage_model dict: a field is none when the key is
absent, in which case dict.get supplies the documented default. -/
structure SlippageModel where
  gap_2pct : Option ℚ
  gap_5pct : Option ℚ
  gap_high : Option ℚ
  deriving Repr, DecidableEq, Inhabited

/-- The configuration dict consumed by run_backtest; each field is none
when the corresponding key is absent so that dict.get defaults apply. -/
structure BacktestConfig where
  max_hold_days : Option ℕ
  fees_bps : Option ℚ
  circuit_guard_pct : Option ℚ
  slippage_model : Option SlippageModel
  deriving Repr, DecidableEq, Inhabited

/-- A row of the trade ledger returned by run_backtest.  Dates are index
positions. -/
structure Trade where
  entry_date : ℕ
  exit_date : ℕ
  hold_days : ℕ
  entry_price : ℚ
  entry_price_adj : ℚ
  exit_price : ℚ
  return_pct : ℚ
  fees_bps : ℚ
  slippage_bps : ℚ
  deriving Repr, DecidableEq, Inhabited

/-- An entry of the internal unfilled_trades list of run_backtest. -/
structure UnfilledTrade where
  date : ℕ
  reason : String
  deriving Repr, DecidableEq, Inhabited

/-- Embeds _calculate_slippage_bps: tiered slippage keyed by the absolute
price gap, with dict.get defaults 5 / 10 / 20. -/
def calculate_slippage_bps (gap_pct : ℚ) (slippage_model : SlippageModel) : ℚ :=
  let gap_abs := |gap_pct|
  if gap_abs < 2/100 then slippage_model.gap_2pct.getD 5
  else if gap_abs < 5/100 then slippage_model.gap_5pct.getD 10
  else slippage_model.gap_high.getD 20

/-- The two lists run_backtest builds while scanning signal indices. -/
structure BacktestState where
  trades : List Trade
  unfilled_trades : List UnfilledTrade
  deriving Repr, DecidableEq, Inhabited

/-- The indices at which the boolean signal series is true
(np.where(signals)[0]). -/
def signal_indices (signals : List Bool) : List ℕ :=
  (List.range signals.length).filter (fun i => signals.getD i false)

/-- The body of the loop of run_backtest for one signal index. -/
def backtest_step (data : List Bar) (max_hold : ℕ) (fees_bps circuit_guard_pct : ℚ)
    (slippage_model : SlippageModel) (st : BacktestState) (signal_idx : ℕ) :
    BacktestState :=
  let entry_idx := signal_idx + 1
  let exit_idx := entry_idx + max_hold
  if data.length ≤ exit_idx then st
  else
    let prev_close := (data.getD signal_idx default).closePrice
    let entry_price := (data.getD entry_idx default).openPrice
    if |entry_price / prev_close - 1| > circuit_guard_pct then
      { st with unfilled_trades :=
          st.unfilled_trades ++ [{ date := entry_idx, reason := "circuit_breaker" }] }
    else
      let gap_pct := (entry_price - prev_close) / prev_close
      let slippage_bps := calculate_slippage_bps gap_pct slippage_model
      let entry_price_adj := entry_price * (1 + slippage_bps / 10000)
      let exit_price := (data.getD exit_idx default).closePrice
      let trade : Trade :=
        { entry_date := entry_idx
          exit_date := exit_idx
          hold_days := max_hold
          entry_price := entry_price
          entry_price_adj := entry_price_adj
          exit_price := exit_price
          return_pct := (exit_price - entry_price_adj) / entry_price_adj
          fees_bps := fees_bps
          slippage_bps := slippage_bps }
      { st with trades := st.trades ++ [trade] }

/-- Embeds run_backtest up to the point where the two accumulated lists
are complete: the trades list and the internal unfilled_trades list. -/
def run_backtest_state (data : List Bar) (signals : List Bool)
    (config : BacktestConfig) : BacktestState :=
  let max_hold := config.max_hold_days.getD 22
  let fees_bps := config.fees_bps.getD 10
  let circuit_guard_pct := config.circuit_guard_pct.getD (10/100)
  let slippage_model := config.slippage_model.getD ⟨none, none, none⟩
  (signal_indices signals).foldl
    (backtest_step data max_hold fees_bps circuit_guard_pct slippage_model)
    ⟨[], []⟩

/-- Embeds run_backtest: the function returns only the trade ledger
(pd.DataFrame(trades)); the unfilled_trades list is logged and dropped. -/
def run_backtest (data : List Bar) (signals : List Bool)
    (config : BacktestConfig) : List Trade :=
  (run_backtest_state data signals config).trades

/-! ## src/core/features.py

A pandas Series with possible NaN entries is a List (Option ℚ).  The
rolling z-score involves a square root, which is irrational, so the
executable embedding carries the pair (x - mean, variance) and decides
the comparison z < k by sign analysis and squaring; a noncomputable
real-valued z-score is defined alongside and the two are proved to
agree (zscore series theorems below). -/

/-- The gap_pct column produced by add_gap_percentage:
(Open - Close.shift(1)) / Close.shift(1), undefined at the first bar. -/
def gap_pct_series (data : List Bar) : List (Option ℚ) :=
  (List.range data.length).map fun t =>
    if t = 0 then none
    else
      let prev := (data.getD (t - 1) default).closePrice
      some (((data.getD t default).openPrice - prev) / prev)

/-- The valid (non-NaN) observations inside the rolling window ending at
position t, i.e. the last min(window, t+1) entries that are defined. -/
def window_vals (s : List (Option ℚ)) (window t : ℕ) : List ℚ :=
  (((s.take (t + 1)).drop (t + 1 - window)).filterMap id)

/-- Default minimum number of observations, int(window * 0.9); the float
product is exact enough that this is the floor of 9w/10 for the window
sizes in use. -/
def min_periods_default (window : ℕ) : ℕ := 9 * window / 10

/-- Rolling mean with a minimum-periods floor: NaN (none) when fewer than
min_periods valid observations are in the window. -/
def rolling_mean (s : List (Option ℚ)) (window mp t : ℕ) : Option ℚ :=
  let vs := window_vals s window t
  if vs.length < mp then none else some (vs.sum / vs.length)

/-- Rolling sample variance (ddof = 1, matching pandas rolling std
squared): NaN when fewer than min_periods valid observations, and also
when fewer than two (the 0/0 of the unbiased estimator). -/
def rolling_var (s : List (Option ℚ)) (window mp t : ℕ) : Option ℚ :=
  let vs := window_vals s window t
  if vs.length < mp ∨ vs.length < 2 then none
  else
    let m := vs.sum / vs.length
    some ((vs.map fun x => (x - m) ^ 2).sum / (vs.length - 1))

/-- The z-score of add_rolling_zscore at position t, represented exactly:
some (x - mean, variance) stands for the real number
(x - mean) / sqrt variance.  It is none exactly when pandas produces NaN:
the observation, the mean or the std is NaN, or the std is exactly zero
(std.replace(0, nan)). -/
def zscore_rep (s : List (Option ℚ)) (window mp t : ℕ) : Option (ℚ × ℚ) :=
  match s.getD t none, rolling_mean s window mp t, rolling_var s window mp t with
  | some x, some m, some v => if v = 0 then none else some (x - m, v)
  | _, _, _ => none

/-- Decides num / sqrt v < k over the rationals, for v > 0, by sign
analysis and squaring. -/
def zlt (num v k : ℚ) : Bool :=
  if 0 ≤ k then num < 0 || (decide (0 ≤ num) && decide (num ^ 2 < k ^ 2 * v))
  else num < 0 && decide (k ^ 2 * v < num ^ 2)

/-- The signal_gapz column of add_gap_z_signal: true exactly when the
z-score of the gap percentage is defined and below k_low
((zscore < k_low).fillna(False)). -/
def signal_gapz (data : List Bar) (window : ℕ) (k_low : ℚ) : List Bool :=
  (List.range data.length).map fun t =>
    match zscore_rep (gap_pct_series data) window (min_periods_default window) t with
    | none => false
    | some (num, v) => zlt num v k_low

/-- The real-valued rolling z-score of add_rolling_zscore, with the
square root taken in ℝ: the specification-level meaning of the float the
Python code computes.  none is NaN; a zero standard deviation is mapped
to NaN by std.replace(0, np.nan) before the division. -/
noncomputable def zscoreR (s : List (Option ℚ)) (window mp t : ℕ) : Option ℝ :=
  match s.getD t none, rolling_mean s window mp t, rolling_var s window mp t with
  | some x, some m, some v =>
      if Real.sqrt (v : ℝ) = 0 then none
      else some (((x : ℝ) - (m : ℝ)) / Real.sqrt (v : ℝ))
  | _, _, _ => none

/-! ## src/core/detectors.py -/

/-- One point of the parameter grid of fit_gap_z_detector. -/
structure GridParams where
  window : ℕ
  k_low : ℚ
  max_hold : ℕ
  deriving Repr, DecidableEq, Inhabited

/-- The Cartesian product of the grid lists in canonical order
(itertools.product with keys window, k_low, max_hold). -/
def grid_combos (windows : List ℕ) (k_lows : List ℚ) (max_holds : List ℕ) :
    List GridParams :=
  windows.flatMap fun w => k_lows.flatMap fun k => max_holds.map fun h =>
    { window := w, k_low := k, max_hold := h }

/-- The minimal config fit_gap_z_detector hands to the backtester:
fees_bps set to 0, slippage_model present but empty, and no
circuit_guard_pct key (so the run_backtest defaults apply). -/
def fit_backtest_config (max_hold : ℕ) : BacktestConfig :=
  { max_hold_days := some max_hold
    fees_bps := some 0
    circuit_guard_pct := none
    slippage_model := some ⟨none, none, none⟩ }

/-- The trial trade ledger one grid combination produces inside fit:
signals from add_gap_z_signal, then run_backtest under the minimal
config. -/
def trial_ledger (data : List Bar) (p : GridParams) : List Trade :=
  run_backtest data (signal_gapz data p.window p.k_low) (fit_backtest_config p.max_hold)

/-- Fraction of trades with positive return ((returns > 0).mean()). -/
def hit_rate (returns : List ℚ) : ℚ :=
  ((returns.filter fun r => decide (0 < r)).length : ℚ) / returns.length

/-- The score a combination contributes in fit, none when skipped
(empty ledger, or hit rate below min_hit_rate), some (median return)
otherwise. -/
def fit_score (data : List Bar) (min_hit_rate : ℚ) (p : GridParams) : Option ℚ :=
  let ledger := trial_ledger data p
  if ledger.isEmpty then none
  else
    let returns := ledger.map (·.return_pct)
    if hit_rate returns < min_hit_rate then none
    else some (median returns)

/-- The selection loop of fit_gap_z_detector: best_score starts at -inf
(modelled by the none accumulator) and a combination replaces the best
exactly when its score is strictly greater. -/
def fit_fold (score : α → Option ℚ) (l : List α) (acc : Option (α × ℚ)) :
    Option (α × ℚ) :=
  l.foldl
    (fun best p =>
      match score p with
      | none => best
      | some s =>
        match best with
        | none => some (p, s)
        | some (bp, bs) => if s > bs then some (p, s) else some (bp, bs))
    acc

/-- Embeds fit_gap_z_detector: grid search over the canonical enumeration,
returning the best parameters or none when no combination qualifies. -/
def fit_gap_z_detector (data : List Bar) (windows : List ℕ) (k_lows : List ℚ)
    (max_holds : List ℕ) (min_hit_rate : ℚ) : Option GridParams :=
  (fit_fold (fit_score data min_hit_rate) (grid_combos windows k_lows max_holds)
    none).map Prod.fst

/-! ## src/core/universe.py -/

/-- One bar of a candidate symbol as universe selection reads it: its
date (as an ordinal), close and volume. -/
structure UBar where
  date : ℕ
  closePrice : ℚ
  volume : ℚ
  deriving Repr, DecidableEq, Inhabited

/-- The universe section of the configuration as select_universe reads
it (all keys present; dict.get defaults are the callers' values). -/
structure UniverseConfig where
  exclude_symbols : List String
  lookback_years : ℕ
  min_price : ℚ
  min_turnover : ℚ
  size : ℕ
  deriving Repr, DecidableEq, Inhabited

/-- Float comparison a < b lifted to Option (none = NaN): any comparison
involving NaN is False, as in IEEE floats and numpy. -/
def lt_opt (a b : Option ℚ) : Bool :=
  match a, b with
  | some x, some y => decide (x < y)
  | _, _ => false

/-- Embeds _compute_turnover: 0.0 when the history is shorter than 70%
of the lookback, otherwise the median of the positive close*volume
values over the trailing lookback window (NaN when none is positive). -/
def compute_turnover (data : List UBar) (lookback_days : ℕ) : Option ℚ :=
  if data.length = 0 ∨ (data.length : ℚ) < (lookback_days : ℚ) * (7/10) then some 0
  else
    let trailing := data.drop (data.length - lookback_days)
    let turnover := trailing.map fun b => b.closePrice * b.volume
    let pos := turnover.filter fun x => decide (0 < x)
    if pos.isEmpty then none else some (median pos)

/-- The qualified_symbols dict of select_universe, in insertion order:
each candidate surviving the exclusion list, the t0 truncation, the
price filter and the turnover filter, paired with its median turnover. -/
def qualified_symbols (all_data : List (String × List UBar))
    (cfg : UniverseConfig) (t0 : ℕ) : List (String × Option ℚ) :=
  let candidates := all_data.filter fun p => !(cfg.exclude_symbols.contains p.1)
  let lookback_days := cfg.lookback_years * 252
  candidates.filterMap fun p =>
    let data_at_t0 := p.2.filter fun b => decide (b.date ≤ t0)
    if data_at_t0.isEmpty then none
    else if decide ((data_at_t0.getLastD default).closePrice < cfg.min_price) then none
    else
      let median_turnover := compute_turnover data_at_t0 lookback_days
      if lt_opt median_turnover (some cfg.min_turnover) then none
      else some (p.1, median_turnover)

/-- Embeds select_universe: none models the EmptyUniverseError raise;
otherwise the qualifying symbols sorted by median turnover in descending
order (Python sorted: stable, no further tie-break key) truncated to the
configured size. -/
def select_universe (all_data : List (String × List UBar))
    (cfg : UniverseConfig) (t0 : ℕ) : Option (List String) :=
  let qualified := qualified_symbols all_data cfg t0
  if qualified.isEmpty then none
  else
    let sorted_symbols := stableSort (fun a b => lt_opt b.2 a.2) qualified
    some ((sorted_symbols.take cfg.size).map Prod.fst)

/-! ## src/pipeline.py -/

/-- One row of a symbol's price data as _select_positions reads it: the
Open price and the Turnover column, keyed by date. -/
structure PRow where
  date : ℕ
  openPrice : ℚ
  turnover : ℚ
  deriving Repr, DecidableEq, Inhabited

/-- One row of the signals DataFrame: symbol, date, and the numeric
signal value used for ranking. -/
structure SignalRow where
  symbol : String
  date : ℕ
  signal : ℚ
  deriving Repr, DecidableEq, Inhabited

/-- The portfolio section of the configuration; reentry_lockout is
looked up with dict.get and defaults to True when absent. -/
structure PortfolioCfg where
  max_concurrent : ℕ
  position_size : ℚ
  reentry_lockout : Option Bool
  deriving Repr, DecidableEq, Inhabited

/-- An open position as produced by _select_positions. -/
structure Position where
  symbol : String
  entry_date : ℕ
  entry_price : ℚ
  size : ℚ
  deriving Repr, DecidableEq, Inhabited

/-- Dict lookup all_data[symbol]. -/
def lookupData (all_data : List (String × List PRow)) (sym : String) :
    Option (List PRow) :=
  (all_data.find? fun p => p.1 == sym).map Prod.snd

/-- The median_turnover mapping _select_positions builds: NaN (none) for
a symbol absent from all_data or with an empty Turnover column. -/
def median_turnover_of (all_data : List (String × List PRow)) (sym : String) :
    Option ℚ :=
  match lookupData all_data sym with
  | none => none
  | some rows => if rows.isEmpty then none else some (median (rows.map (·.turnover)))

/-- Strictly-above test for the median-turnover key in its descending
position: a defined value beats NaN (pandas places NaN last), and two
defined values compare numerically. -/
def mt_before (a b : Option ℚ) : Bool :=
  lt_opt b a || (a.isSome && b.isNone)

/-- The three-level candidate order of _select_positions: signal value
descending, then median turnover descending (NaN sorting last), then
symbol name ascending.  True means x comes strictly before y. -/
def row_before (medTurn : String → Option ℚ) (x y : SignalRow) : Bool :=
  if y.signal < x.signal then true
  else if x.signal < y.signal then false
  else if mt_before (medTurn x.symbol) (medTurn y.symbol) then true
  else if mt_before (medTurn y.symbol) (medTurn x.symbol) then false
  else strLt x.symbol y.symbol

/-- The Open price of a symbol at a date, all_data[symbol].loc[date]["Open"]
(total with a junk default where Python would raise KeyError). -/
def open_price_at (all_data : List (String × List PRow)) (sym : String)
    (d : ℕ) : ℚ :=
  ((((lookupData all_data sym).getD []).find? fun row => row.date == d).getD
    default).openPrice

/-- Embeds _select_positions: slot computation, re-entry lockout,
deterministic three-level sort, truncation to the available slots, and
Position construction with the entry price taken from the symbol's Open
on the signal date. -/
def select_positions (signals : List SignalRow)
    (all_data : List (String × List PRow)) (portfolio_cfg : PortfolioCfg)
    (open_positions : List String) : List Position :=
  let available_slots : ℤ :=
    (portfolio_cfg.max_concurrent : ℤ) - open_positions.length
  if available_slots ≤ 0 ∨ signals.isEmpty then []
  else
    let medTurn := median_turnover_of all_data
    let candidate_signals :=
      if portfolio_cfg.reentry_lockout.getD true then
        signals.filter fun r => !(open_positions.contains r.symbol)
      else signals
    let sorted_rows := stableSort (row_before medTurn) candidate_signals
    let selected := sorted_rows.take available_slots.toNat
    if selected.isEmpty then []
    else
      selected.map fun r =>
        { symbol := r.symbol
          entry_date := r.date
          entry_price := open_price_at all_data r.symbol r.date
          size := portfolio_cfg.position_size }

/-! ## src/walk_forward.py

Calendar dates and the month arithmetic of dateutil relativedelta:
adding months keeps the day of month but clamps it to the length of the
target month. -/

/-- A calendar date. -/
structure Date where
  year : ℕ
  month : ℕ
  day : ℕ
  deriving Repr, DecidableEq, Inhabited

/-- Gregorian leap year rule. -/
def isLeap (y : ℕ) : Bool := (y % 4 == 0 && y % 100 != 0) || (y % 400 == 0)

/-- Number of days of a month. -/
def daysInMonth (y m : ℕ) : ℕ :=
  if m = 2 then (if isLeap y then 29 else 28)
  else if m = 4 ∨ m = 6 ∨ m = 9 ∨ m = 11 then 30
  else 31

/-- date + relativedelta(months=k): shift the month index and clamp the
day to the length of the target month, as dateutil does. -/
def addMonths (d : Date) (months : ℕ) : Date :=
  let idx := d.year * 12 + (d.month - 1) + months
  let y := idx / 12
  let m := idx % 12 + 1
  ⟨y, m, min d.day (daysInMonth y m)⟩

/-- date - relativedelta(months=k), used only for the holdout reserve at
the end of the range (truncated at year zero, far outside any use). -/
def subMonths (d : Date) (months : ℕ) : Date :=
  let idx := d.year * 12 + (d.month - 1) - months
  let y := idx / 12
  let m := idx % 12 + 1
  ⟨y, m, min d.day (daysInMonth y m)⟩

/-- date - relativedelta(days=1) on a valid date. -/
def subDay (d : Date) : Date :=
  if 1 < d.day then ⟨d.year, d.month, d.day - 1⟩
  else if 1 < d.month then ⟨d.year, d.month - 1, daysInMonth d.year (d.month - 1)⟩
  else ⟨d.year - 1, 12, 31⟩

/-- date + relativedelta(days=1) on a valid date. -/
def addDay (d : Date) : Date :=
  if d.day < daysInMonth d.year d.month then ⟨d.year, d.month, d.day + 1⟩
  else if d.month < 12 then ⟨d.year, d.month + 1, 1⟩
  else ⟨d.year + 1, 1, 1⟩

/-- Calendar order on dates (lexicographic year, month, day). -/
def dateLe (a b : Date) : Bool :=
  decide (a.year < b.year) ||
    (a.year == b.year &&
      (decide (a.month < b.month) ||
        (a.month == b.month && decide (a.day ≤ b.day))))

/-- Strict calendar order on dates. -/
def dateLt (a b : Date) : Bool :=
  decide (a.year < b.year) ||
    (a.year == b.year &&
      (decide (a.month < b.month) ||
        (a.month == b.month && decide (a.day < b.day))))

/-- The walk_forward section of the configuration. -/
structure WalkForwardConfig where
  is_years : ℕ
  oos_years : ℕ
  holdout_years : ℕ
  deriving Repr, DecidableEq, Inhabited

/-- A single walk-forward split. -/
structure WalkForwardSplit where
  is_start_date : Date
  is_end_date : Date
  oos_start_date : Date
  oos_end_date : Date
  deriving Repr, DecidableEq, Inhabited

/-- The while loop of create_walk_forward_splits, with explicit fuel:
every iteration advances the cursor by oos_months, so when oos_years is
positive the cursor's year grows each round and the loop runs at most
train_end.year + 1 times; the caller passes more fuel than that.  (For
oos_years = 0 the Python loop does not terminate.) -/
def splits_loop (train_end_date : Date) (is_months oos_months : ℕ) :
    ℕ → Date → List WalkForwardSplit
  | 0, _ => []
  | fuel + 1, current_date =>
    if dateLe (addMonths current_date (is_months + oos_months)) train_end_date then
      let is_start := current_date
      let is_end := subDay (addMonths current_date is_months)
      let oos_start := addMonths current_date is_months
      let oos_end := subDay (addMonths oos_start oos_months)
      ⟨is_start, is_end, oos_start, oos_end⟩ ::
        splits_loop train_end_date is_months oos_months fuel
          (addMonths current_date oos_months)
    else []

/-- Embeds create_walk_forward_splits. -/
def create_walk_forward_splits (start_date end_date : Date)
    (wf_config : WalkForwardConfig) : List WalkForwardSplit :=
  let holdout_months := wf_config.holdout_years * 12
  let is_months := wf_config.is_years * 12
  let oos_months := wf_config.oos_years * 12
  let train_end_date := subMonths end_date holdout_months
  splits_loop train_end_date is_months oos_months (train_end_date.year + 2)
    start_date

/-! ## src/config.py and src/detectors.py -/

/-- The raw configuration dictionary as _validate_config reads it, plus
the detector and walk-forward entries the claims mention (dates are day
ordinals; only their order matters to the validator).  Year counts and
max_hold are integers straight from YAML, so they can be negative. -/
structure RawConfig where
  run_t0 : ℕ
  data_start_date : ℕ
  data_end_date : ℕ
  wf_is_years : ℤ
  wf_oos_years : ℤ
  wf_holdout_years : ℤ
  detector_k_low_range : List ℚ
  detector_max_hold : ℤ
  deriving Repr, DecidableEq, Inhabited

/-- Embeds _validate_config: true exactly when no ValueError is raised.
The checks are: data_end after data_start, t0 strictly inside the data
range, and is_years + oos_years positive. -/
def validate_config (cfg : RawConfig) : Bool :=
  decide (cfg.data_start_date < cfg.data_end_date) &&
  (decide (cfg.data_start_date < cfg.run_t0) &&
    decide (cfg.run_t0 < cfg.data_end_date)) &&
  decide (0 < cfg.wf_is_years + cfg.wf_oos_years)

/-- Embeds generate_signals of src/detectors.py: raises (error) for a
non-negative k_low, otherwise the boolean series z < k_low where z is
the rolling z-score of the given gap_pct column with min_periods
defaulting to window // 2 and a zero rolling std replaced by NaN. -/
def generate_signals (gap_pct : List (Option ℚ)) (window : ℕ) (k_low : ℚ) :
    Except String (List Bool) :=
  if 0 ≤ k_low then
    .error "k_low threshold must be a negative value for this strategy."
  else
    .ok ((List.range gap_pct.length).map fun t =>
      match zscore_rep gap_pct window (window / 2) t with
      | none => false
      | some (num, v) => zlt num v k_low)

/-! ## Lemmas about the execution simulator -/

/-- The entry gap of signal index i, (open[entry] - close[signal]) /
close[signal]: the gap_pct of step 2 of run_backtest and the entry_gap
of the specification. -/
def entry_gap (data : List Bar) (i : ℕ) : ℚ :=
  ((data.getD (i + 1) default).openPrice - (data.getD i default).closePrice) /
    (data.getD i default).closePrice

/-- The circuit-breaker test of run_backtest at signal index i, written
exactly as the code writes it: abs(entry_price / prev_close - 1) >
circuit_guard_pct. -/
def circuit_reject (data : List Bar) (circuit_guard_pct : ℚ) (i : ℕ) : Prop :=
  |(data.getD (i + 1) default).openPrice / (data.getD i default).closePrice - 1| >
    circuit_guard_pct

instance (data : List Bar) (g : ℚ) (i : ℕ) : Decidable (circuit_reject data g i) := by
  unfold circuit_reject; infer_instance

/-- The trade row run_backtest appends for a signal index that passes
the data-length and circuit-breaker checks (the fill branch of
backtest_step, as a standalone value). -/
def filled_trade (data : List Bar) (max_hold : ℕ) (fees_bps : ℚ)
    (slippage_model : SlippageModel) (i : ℕ) : Trade :=
  let entry_price := (data.getD (i + 1) default).openPrice
  let slippage_bps := calculate_slippage_bps (entry_gap data i) slippage_model
  let entry_price_adj := entry_price * (1 + slippage_bps / 10000)
  let exit_price := (data.getD (i + 1 + max_hold) default).closePrice
  { entry_date := i + 1
    exit_date := i + 1 + max_hold
    hold_days := max_hold
    entry_price := entry_price
    entry_price_adj := entry_price_adj
    exit_price := exit_price
    return_pct := (exit_price - entry_price_adj) / entry_price_adj
    fees_bps := fees_bps
    slippage_bps := slippage_bps }

theorem backtest_step_of_short {data : List Bar} {mh : ℕ} {fees g : ℚ}
    {model : SlippageModel} {st : BacktestState} {i : ℕ}
    (h : data.length ≤ i + 1 + mh) :
    backtest_step data mh fees g model st i = st := by
  simp only [backtest_step]
  rw [if_pos h]

theorem backtest_step_of_reject {data : List Bar} {mh : ℕ} {fees g : ℚ}
    {model : SlippageModel} {st : BacktestState} {i : ℕ}
    (h1 : i + 1 + mh < data.length) (h2 : circuit_reject data g i) :
    backtest_step data mh fees g model st i =
      { st with unfilled_trades :=
          st.unfilled_trades ++ [{ date := i + 1, reason := "circuit_breaker" }] } := by
  have h2x : |(data.getD (i + 1) default).openPrice /
      (data.getD i default).closePrice - 1| > g := h2
  simp only [backtest_step]
  rw [if_neg (Nat.not_le.mpr h1), if_pos h2x]

theorem backtest_step_of_fill {data : List Bar} {mh : ℕ} {fees g : ℚ}
    {model : SlippageModel} {st : BacktestState} {i : ℕ}
    (h1 : i + 1 + mh < data.length) (h2 : ¬ circuit_reject data g i) :
    backtest_step data mh fees g model st i =
      { st with trades := st.trades ++ [filled_trade data mh fees model i] } := by
  have h2x : ¬ (|(data.getD (i + 1) default).openPrice /
      (data.getD i default).closePrice - 1| > g) := h2
  simp only [backtest_step]
  rw [if_neg (Nat.not_le.mpr h1), if_neg h2x]
  simp only [filled_trade, entry_gap]

theorem mem_trades_foldl {data : List Bar} {mh : ℕ} {fees g : ℚ}
    {model : SlippageModel} {t : Trade} :
    ∀ (l : List ℕ) (st : BacktestState),
      (t ∈ (l.foldl (backtest_step data mh fees g model) st).trades ↔
        t ∈ st.trades ∨ ∃ i ∈ l, (i + 1 + mh < data.length ∧
          ¬ circuit_reject data g i) ∧ t = filled_trade data mh fees model i)
  | [], st => by simp
  | i :: l, st => by
    rw [List.foldl_cons, mem_trades_foldl l]
    by_cases h1 : i + 1 + mh < data.length
    · by_cases h2 : circuit_reject data g i
      · rw [backtest_step_of_reject h1 h2]
        constructor
        · rintro (h | ⟨j, hj, hc, ht⟩)
          · exact Or.inl h
          · exact Or.inr ⟨j, List.mem_cons_of_mem i hj, hc, ht⟩
        · rintro (h | ⟨j, hj, hc, ht⟩)
          · exact Or.inl h
          · rcases List.mem_cons.mp hj with rfl | hj
            · exact absurd h2 hc.2
            · exact Or.inr ⟨j, hj, hc, ht⟩
      · rw [backtest_step_of_fill h1 h2]
        constructor
        · rintro (h | ⟨j, hj, hc, ht⟩)
          · rcases List.mem_append.mp h with h | h
            · exact Or.inl h
            · exact Or.inr ⟨i, List.mem_cons_self i l, ⟨h1, h2⟩,
                List.mem_singleton.mp h⟩
          · exact Or.inr ⟨j, List.mem_cons_of_mem i hj, hc, ht⟩
        · rintro (h | ⟨j, hj, hc, ht⟩)
          · exact Or.inl (List.mem_append.mpr (Or.inl h))
          · rcases List.mem_cons.mp hj with rfl | hj
            · exact Or.inl (List.mem_append.mpr (Or.inr (List.mem_singleton.mpr ht)))
            · exact Or.inr ⟨j, hj, hc, ht⟩
    · rw [backtest_step_of_short (Nat.not_lt.mp h1)]
      constructor
      · rintro (h | ⟨j, hj, hc, ht⟩)
        · exact Or.inl h
        · exact Or.inr ⟨j, List.mem_cons_of_mem i hj, hc, ht⟩
      · rintro (h | ⟨j, hj, hc, ht⟩)
        · exact Or.inl h
        · rcases List.mem_cons.mp hj with rfl | hj
          · exact absurd hc.1 h1
          · exact Or.inr ⟨j, hj, hc, ht⟩

theorem mem_unfilled_foldl {data : List Bar} {mh : ℕ} {fees g : ℚ}
    {model : SlippageModel} {u : UnfilledTrade} :
    ∀ (l : List ℕ) (st : BacktestState),
      (u ∈ (l.foldl (backtest_step data mh fees g model) st).unfilled_trades ↔
        u ∈ st.unfilled_trades ∨ ∃ i ∈ l, (i + 1 + mh < data.length ∧
          circuit_reject data g i) ∧
          u = { date := i + 1, reason := "circuit_breaker" })
  | [], st => by simp
  | i :: l, st => by
    rw [List.foldl_cons, mem_unfilled_foldl l]
    by_cases h1 : i + 1 + mh < data.length
    · by_cases h2 : circuit_reject data g i
      · rw [backtest_step_of_reject h1 h2]
        constructor
        · rintro (h | ⟨j, hj, hc, ht⟩)
          · rcases List.mem_append.mp h with h | h
            · exact Or.inl h
            · exact Or.inr ⟨i, List.mem_cons_self i l, ⟨h1, h2⟩,
                List.mem_singleton.mp h⟩
          · exact Or.inr ⟨j, List.mem_cons_of_mem i hj, hc, ht⟩
        · rintro (h | ⟨j, hj, hc, ht⟩)
          · exact Or.inl (List.mem_append.mpr (Or.inl h))
          · rcases List.mem_cons.mp hj with rfl | hj
            · exact Or.inl (List.mem_append.mpr (Or.inr (List.mem_singleton.mpr ht)))
            · exact Or.inr ⟨j, hj, hc, ht⟩
      · rw [backtest_step_of_fill h1 h2]
        constructor
        · rintro (h | ⟨j, hj, hc, ht⟩)
          · exact Or.inl h
          · exact Or.inr ⟨j, List.mem_cons_of_mem i hj, hc, ht⟩
        · rintro (h | ⟨j, hj, hc, ht⟩)
          · exact Or.inl h
          · rcases List.mem_cons.mp hj with rfl | hj
            · exact absurd hc.2 h2
            · exact Or.inr ⟨j, hj, hc, ht⟩
    · rw [backtest_step_of_short (Nat.not_lt.mp h1)]
      constructor
      · rintro (h | ⟨j, hj, hc, ht⟩)
        · exact Or.inl h
        · exact Or.inr ⟨j, List.mem_cons_of_mem i hj, hc, ht⟩
      · rintro (h | ⟨j, hj, hc, ht⟩)
        · exact Or.inl h
        · rcases List.mem_cons.mp hj with rfl | hj
          · exact absurd hc.1 h1
          · exact Or.inr ⟨j, hj, hc, ht⟩

theorem mem_signal_indices {signals : List Bool} {i : ℕ} :
    i ∈ signal_indices signals ↔ signals.getD i false = true := by
  constructor
  · intro h
    exact (List.mem_filter.mp h).2
  · intro h
    refine List.mem_filter.mpr ⟨List.mem_range.mpr ?_, h⟩
    by_contra hlen
    rw [List.getD_eq_default _ _ (Nat.le_of_not_lt hlen)] at h
    exact Bool.false_ne_true h

/-- Membership in the returned trade ledger, characterised. -/
theorem mem_run_backtest {data : List Bar} {signals : List Bool}
    {config : BacktestConfig} {t : Trade} :
    t ∈ run_backtest data signals config ↔
      ∃ i, signals.getD i false = true ∧
        (i + 1 + config.max_hold_days.getD 22 < data.length ∧
          ¬ circuit_reject data (config.circuit_guard_pct.getD (10/100)) i) ∧
        t = filled_trade data (config.max_hold_days.getD 22)
              (config.fees_bps.getD 10)
              (config.slippage_model.getD ⟨none, none, none⟩) i := by
  unfold run_backtest run_backtest_state
  rw [mem_trades_foldl]
  simp only [List.not_mem_nil, false_or]
  constructor
  · rintro ⟨i, hi, hc, ht⟩
    exact ⟨i, mem_signal_indices.mp hi, hc, ht⟩
  · rintro ⟨i, hi, hc, ht⟩
    exact ⟨i, mem_signal_indices.mpr hi, hc, ht⟩

/-- Membership in the internal unfilled list, characterised. -/
theorem mem_run_backtest_unfilled {data : List Bar} {signals : List Bool}
    {config : BacktestConfig} {u : UnfilledTrade} :
    u ∈ (run_backtest_state data signals config).unfilled_trades ↔
      ∃ i, signals.getD i false = true ∧
        (i + 1 + config.max_hold_days.getD 22 < data.length ∧
          circuit_reject data (config.circuit_guard_pct.getD (10/100)) i) ∧
        u = { date := i + 1, reason := "circuit_breaker" } := by
  unfold run_backtest_state
  rw [mem_unfilled_foldl]
  simp only [List.not_mem_nil, false_or]
  constructor
  · rintro ⟨i, hi, hc, ht⟩
    exact ⟨i, mem_signal_indices.mp hi, hc, ht⟩
  · rintro ⟨i, hi, hc, ht⟩
    exact ⟨i, mem_signal_indices.mpr hi, hc, ht⟩

theorem ratio_sub_one {a b : ℚ} (hb : b ≠ 0) : a / b - 1 = (a - b) / b := by
  field_simp

/-- The circuit-breaker test written with the ratio equals the test
written with the entry gap whenever the previous close is nonzero. -/
theorem circuit_reject_iff_gap {data : List Bar} {g : ℚ} {i : ℕ}
    (hclose : (data.getD i default).closePrice ≠ 0) :
    circuit_reject data g i ↔ |entry_gap data i| > g := by
  unfold circuit_reject entry_gap
  rw [ratio_sub_one hclose]

/-- C1, amended.  A signal whose entry gap exceeds the circuit guard
never produces a trade in the returned ledger; but the unfilled record
(whose reason string is "circuit_breaker") is only appended to the
internal unfilled_trades list — which run_backtest logs and drops — and
only when the holding window also fits inside the data; a too-late
signal is skipped with no record at all. -/
theorem circuit_breaker_claim (data : List Bar) (signals : List Bool)
    (config : BacktestConfig) (i : ℕ)
    (hsig : signals.getD i false = true)
    (hclose : (data.getD i default).closePrice ≠ 0)
    (hgap : |entry_gap data i| > config.circuit_guard_pct.getD (10/100)) :
    (∀ t ∈ run_backtest data signals config, t.entry_date ≠ i + 1) ∧
    (i + 1 + config.max_hold_days.getD 22 < data.length →
      ({ date := i + 1, reason := "circuit_breaker" } : UnfilledTrade) ∈
        (run_backtest_state data signals config).unfilled_trades) := by
  constructor
  · intro t ht hdate
    obtain ⟨j, hj, ⟨hfit, hno⟩, rfl⟩ := mem_run_backtest.mp ht
    have hij : j = i := by
      have : j + 1 = i + 1 := hdate
      omega
    subst hij
    exact hno ((circuit_reject_iff_gap hclose).mpr hgap)
  · intro hfit
    exact mem_run_backtest_unfilled.mpr
      ⟨i, hsig, ⟨hfit, (circuit_reject_iff_gap hclose).mpr hgap⟩, rfl⟩

theorem circuit_breaker_claim_witness :
    (∀ t ∈ run_backtest [⟨100,100⟩, ⟨200,200⟩, ⟨210,210⟩] [true, false, false]
        ⟨some 1, none, none, none⟩, t.entry_date ≠ 0 + 1) ∧
    (0 + 1 + 1 < 3 →
      ({ date := 0 + 1, reason := "circuit_breaker" } : UnfilledTrade) ∈
        (run_backtest_state [⟨100,100⟩, ⟨200,200⟩, ⟨210,210⟩] [true, false, false]
          ⟨some 1, none, none, none⟩).unfilled_trades) :=
  circuit_breaker_claim _ _ _ 0 (by decide) (by norm_num) (by norm_num [entry_gap])

/-- C1, counterexample to the claim as stated: the first signal's entry
gap is 100%, far above the default 10% guard, yet the backtest output
records nothing at all: no trade, and also no unfilled signal (neither
in the returned ledger, which never carries unfilled records, nor even
in the internal list, because the holding window does not fit in the
data and the signal is skipped before the circuit-breaker check). -/
theorem circuit_breaker_claim_counterexample :
    |entry_gap [⟨100,100⟩, ⟨200,200⟩] 0| > (10/100 : ℚ) ∧
    [true, false].getD 0 false = true ∧
    run_backtest [⟨100,100⟩, ⟨200,200⟩] [true, false] ⟨none, none, none, none⟩ = [] ∧
    (run_backtest_state [⟨100,100⟩, ⟨200,200⟩] [true, false]
      ⟨none, none, none, none⟩).unfilled_trades = [] := by
  refine ⟨by norm_num [entry_gap], by decide, ?_, ?_⟩ <;>
    norm_num [run_backtest, run_backtest_state, signal_indices, List.range_succ,
      backtest_step]

/-- The tier table never returns a negative slippage when the three
configured tiers (or their defaults) are nonnegative. -/
theorem calculate_slippage_bps_nonneg {gap : ℚ} {model : SlippageModel}
    (h2 : 0 ≤ model.gap_2pct.getD 5) (h5 : 0 ≤ model.gap_5pct.getD 10)
    (hh : 0 ≤ model.gap_high.getD 20) :
    0 ≤ calculate_slippage_bps gap model := by
  simp only [calculate_slippage_bps]
  split
  · exact h2
  · split
    · exact h5
    · exact hh

/-- C9.  Every filled trade enters at the bar after its signal, pays the
tier of slippage selected by the absolute entry gap against the 2% and
5% boundaries, has its adjusted entry price equal to
open * (1 + slippage_bps/10000), and (for nonnegative prices and tier
values) the adjustment is adverse: entry_price_adj is at least the raw
open. -/
theorem slippage_adverse_and_tiers (data : List Bar) (signals : List Bool)
    (config : BacktestConfig) (i : ℕ)
    (hsig : signals.getD i false = true)
    (hfit : i + 1 + config.max_hold_days.getD 22 < data.length)
    (hguard : ¬ circuit_reject data (config.circuit_guard_pct.getD (10/100)) i)
    (hopen : 0 ≤ (data.getD (i + 1) default).openPrice)
    (h2 : 0 ≤ (config.slippage_model.getD ⟨none, none, none⟩).gap_2pct.getD 5)
    (h5 : 0 ≤ (config.slippage_model.getD ⟨none, none, none⟩).gap_5pct.getD 10)
    (hh : 0 ≤ (config.slippage_model.getD ⟨none, none, none⟩).gap_high.getD 20) :
    ∃ t ∈ run_backtest data signals config,
      t.entry_date = i + 1 ∧
      t.entry_price = (data.getD (i + 1) default).openPrice ∧
      t.slippage_bps = calculate_slippage_bps (entry_gap data i)
        (config.slippage_model.getD ⟨none, none, none⟩) ∧
      t.entry_price_adj = t.entry_price * (1 + t.slippage_bps / 10000) ∧
      t.entry_price ≤ t.entry_price_adj ∧
      (|entry_gap data i| < 2/100 →
        t.slippage_bps = (config.slippage_model.getD ⟨none, none, none⟩).gap_2pct.getD 5) ∧
      (2/100 ≤ |entry_gap data i| → |entry_gap data i| < 5/100 →
        t.slippage_bps = (config.slippage_model.getD ⟨none, none, none⟩).gap_5pct.getD 10) ∧
      (5/100 ≤ |entry_gap data i| →
        t.slippage_bps = (config.slippage_model.getD ⟨none, none, none⟩).gap_high.getD 20) := by
  refine ⟨filled_trade data (config.max_hold_days.getD 22) (config.fees_bps.getD 10)
    (config.slippage_model.getD ⟨none, none, none⟩) i,
    mem_run_backtest.mpr ⟨i, hsig, ⟨hfit, hguard⟩, rfl⟩, ?_⟩
  have hs : 0 ≤ calculate_slippage_bps (entry_gap data i)
      (config.slippage_model.getD ⟨none, none, none⟩) :=
    calculate_slippage_bps_nonneg h2 h5 hh
  refine ⟨rfl, rfl, rfl, rfl, ?_, ?_, ?_, ?_⟩
  · simp only [filled_trade]
    have : (1 : ℚ) ≤ 1 + calculate_slippage_bps (entry_gap data i)
        (config.slippage_model.getD ⟨none, none, none⟩) / 10000 := by
      have : 0 ≤ calculate_slippage_bps (entry_gap data i)
          (config.slippage_model.getD ⟨none, none, none⟩) / 10000 := by positivity
      linarith
    exact le_mul_of_one_le_right hopen this
  · intro hlt
    simp only [filled_trade, calculate_slippage_bps]
    rw [if_pos hlt]
  · intro hge hlt
    simp only [filled_trade, calculate_slippage_bps]
    rw [if_neg (not_lt.mpr hge), if_pos hlt]
  · intro hge
    simp only [filled_trade, calculate_slippage_bps]
    rw [if_neg (not_lt.mpr (le_trans (by norm_num) hge)),
      if_neg (not_lt.mpr hge)]

theorem slippage_adverse_and_tiers_witness :
    ∃ t ∈ run_backtest [⟨100,100⟩, ⟨101,103⟩, ⟨103,105⟩] [true, false, false]
        ⟨some 1, none, none, none⟩,
      t.entry_date = 0 + 1 ∧
      t.entry_price = (([⟨100,100⟩, ⟨101,103⟩, ⟨103,105⟩] : List Bar).getD
        (0 + 1) default).openPrice ∧
      t.slippage_bps = calculate_slippage_bps
        (entry_gap [⟨100,100⟩, ⟨101,103⟩, ⟨103,105⟩] 0) ⟨none, none, none⟩ ∧
      t.entry_price_adj = t.entry_price * (1 + t.slippage_bps / 10000) ∧
      t.entry_price ≤ t.entry_price_adj ∧
      (|entry_gap [⟨100,100⟩, ⟨101,103⟩, ⟨103,105⟩] 0| < 2/100 →
        t.slippage_bps = 5) ∧
      (2/100 ≤ |entry_gap [⟨100,100⟩, ⟨101,103⟩, ⟨103,105⟩] 0| →
        |entry_gap [⟨100,100⟩, ⟨101,103⟩, ⟨103,105⟩] 0| < 5/100 →
        t.slippage_bps = 10) ∧
      (5/100 ≤ |entry_gap [⟨100,100⟩, ⟨101,103⟩, ⟨103,105⟩] 0| →
        t.slippage_bps = 20) :=
  slippage_adverse_and_tiers _ _ _ 0 (by decide) (by decide)
    (by norm_num [circuit_reject, abs_le]) (by norm_num) (by norm_num)
    (by norm_num) (by norm_num)

set_option maxHeartbeats 2000000 in
/-- C3.  The trial backtests inside fit are not cost-free: on the
specification's own fixture (window 3, k_low -1, max_hold 1) the single
trial trade carries 5 bps of slippage — the empty slippage_model dict
makes _calculate_slippage_bps fall back to its defaults — so its
return is strictly below the raw next-open-to-close return (which is 0
here); and on a variant whose entry gap is 15% the default 10% circuit
guard rejects the trial trade, leaving an empty trial ledger and an
internal circuit_breaker record. -/
theorem fit_trial_costs_bug :
    (trial_ledger [⟨100,100⟩, ⟨100,100⟩, ⟨100,100⟩, ⟨90,100⟩, ⟨100,100⟩, ⟨100,100⟩]
      ⟨3, -1, 1⟩).map (fun t => (t.slippage_bps, t.return_pct)) =
      [(5, (100 - 100 * (1 + 5/10000)) / (100 * (1 + 5/10000)))] ∧
    ((100 : ℚ) - 100 * (1 + 5/10000)) / (100 * (1 + 5/10000)) < 0 ∧
    trial_ledger [⟨100,100⟩, ⟨100,100⟩, ⟨100,100⟩, ⟨90,100⟩, ⟨115,100⟩, ⟨100,100⟩]
      ⟨3, -1, 1⟩ = [] ∧
    (run_backtest_state [⟨100,100⟩, ⟨100,100⟩, ⟨100,100⟩, ⟨90,100⟩, ⟨115,100⟩, ⟨100,100⟩]
      (signal_gapz [⟨100,100⟩, ⟨100,100⟩, ⟨100,100⟩, ⟨90,100⟩, ⟨115,100⟩, ⟨100,100⟩] 3 (-1))
      (fit_backtest_config 1)).unfilled_trades =
      [{ date := 4, reason := "circuit_breaker" }] := by
  refine ⟨?_, by norm_num, ?_, ?_⟩ <;>
    norm_num [trial_ledger, run_backtest, run_backtest_state, signal_gapz,
      gap_pct_series, List.range_succ, zscore_rep, rolling_mean, rolling_var,
      window_vals, min_periods_default, zlt, signal_indices, backtest_step,
      calculate_slippage_bps, fit_backtest_config, List.filterMap_cons,
      List.filterMap_nil, abs_of_nonneg, abs_of_nonpos]

/-! ## Lemmas about the grid-search fold of fit_gap_z_detector -/

theorem fit_fold_cons_none {score : α → Option ℚ} {q : α} (l : List α)
    (acc : Option (α × ℚ)) (hq : score q = none) :
    fit_fold score (q :: l) acc = fit_fold score l acc := by
  simp [fit_fold, hq]

theorem fit_fold_cons_fresh {score : α → Option ℚ} {q : α} {s : ℚ} (l : List α)
    (hq : score q = some s) :
    fit_fold score (q :: l) none = fit_fold score l (some (q, s)) := by
  simp [fit_fold, hq]

theorem fit_fold_cons_challenge {score : α → Option ℚ} {q : α} {s : ℚ}
    (l : List α) (b : α) (bs : ℚ) (hq : score q = some s) :
    fit_fold score (q :: l) (some (b, bs)) =
      fit_fold score l (if s > bs then some (q, s) else some (b, bs)) := by
  simp [fit_fold, hq]

/-- Once a best candidate exists, the fold returns a qualifying optimum:
its score never decreases, it dominates every score in the remaining
list, and it is either the incoming best or a strictly improving element
whose strictly earlier qualifying elements all score strictly less. -/
theorem fit_fold_some (score : α → Option ℚ) :
    ∀ (l : List α) (b : α) (bs : ℚ),
      ∃ p s, fit_fold score l (some (b, bs)) = some (p, s) ∧ bs ≤ s ∧
        (∀ q ∈ l, ∀ t, score q = some t → t ≤ s) ∧
        ((p = b ∧ s = bs) ∨
          (bs < s ∧ ∃ l1 l2, l = l1 ++ p :: l2 ∧ score p = some s ∧
            ∀ q ∈ l1, ∀ t, score q = some t → t < s))
  | [], b, bs => ⟨b, bs, rfl, le_refl bs, by simp, Or.inl ⟨rfl, rfl⟩⟩
  | q0 :: rest, b, bs => by
    cases hq : score q0 with
    | none =>
      rw [fit_fold_cons_none rest _ hq]
      obtain ⟨p, s, heq, hle, hmax, hcase⟩ := fit_fold_some score rest b bs
      refine ⟨p, s, heq, hle, ?_, ?_⟩
      · intro q hqm t hts
        rcases List.mem_cons.mp hqm with rfl | hqm
        · rw [hq] at hts; exact absurd hts (by simp)
        · exact hmax q hqm t hts
      · rcases hcase with h | ⟨hlt, l1, l2, hsplit, hsp, hstrict⟩
        · exact Or.inl h
        · refine Or.inr ⟨hlt, q0 :: l1, l2, by simp [hsplit], hsp, ?_⟩
          intro q hqm t hts
          rcases List.mem_cons.mp hqm with rfl | hqm
          · rw [hq] at hts; exact absurd hts (by simp)
          · exact hstrict q hqm t hts
    | some t0 =>
      rw [fit_fold_cons_challenge rest b bs hq]
      by_cases ht0 : t0 > bs
      · rw [if_pos ht0]
        obtain ⟨p, s, heq, hle, hmax, hcase⟩ := fit_fold_some score rest q0 t0
        refine ⟨p, s, heq, le_of_lt (lt_of_lt_of_le ht0 hle), ?_, ?_⟩
        · intro q hqm t hts
          rcases List.mem_cons.mp hqm with rfl | hqm
          · rw [hq] at hts
            exact (Option.some_inj.mp hts) ▸ hle
          · exact hmax q hqm t hts
        · rcases hcase with ⟨rfl, rfl⟩ | ⟨hlt, l1, l2, hsplit, hsp, hstrict⟩
          · exact Or.inr ⟨ht0, [], rest, rfl, hq, by simp⟩
          · refine Or.inr ⟨lt_trans ht0 hlt, q0 :: l1, l2, by simp [hsplit], hsp, ?_⟩
            intro q hqm t hts
            rcases List.mem_cons.mp hqm with rfl | hqm
            · rw [hq] at hts
              exact (Option.some_inj.mp hts) ▸ hlt
            · exact hstrict q hqm t hts
      · rw [if_neg ht0]
        obtain ⟨p, s, heq, hle, hmax, hcase⟩ := fit_fold_some score rest b bs
        have ht0' : t0 ≤ bs := le_of_not_lt ht0
        refine ⟨p, s, heq, hle, ?_, ?_⟩
        · intro q hqm t hts
          rcases List.mem_cons.mp hqm with rfl | hqm
          · rw [hq] at hts
            exact (Option.some_inj.mp hts) ▸ le_trans ht0' hle
          · exact hmax q hqm t hts
        · rcases hcase with h | ⟨hlt, l1, l2, hsplit, hsp, hstrict⟩
          · exact Or.inl h
          · refine Or.inr ⟨hlt, q0 :: l1, l2, by simp [hsplit], hsp, ?_⟩
            intro q hqm t hts
            rcases List.mem_cons.mp hqm with rfl | hqm
            · rw [hq] at hts
              exact (Option.some_inj.mp hts) ▸ lt_of_le_of_lt ht0' hlt
            · exact hstrict q hqm t hts

/-- Starting from no best candidate, the fold either stays at none or
enters the some state at the first qualifying element. -/
theorem fit_fold_none_start (score : α → Option ℚ) :
    ∀ l : List α,
      fit_fold score l none = none ∨
        ∃ l1 q l2 s, l = l1 ++ q :: l2 ∧ (∀ x ∈ l1, score x = none) ∧
          score q = some s ∧
          fit_fold score l none = fit_fold score l2 (some (q, s))
  | [] => Or.inl rfl
  | q0 :: rest => by
    cases hq : score q0 with
    | none =>
      rw [fit_fold_cons_none rest _ hq]
      rcases fit_fold_none_start score rest with h | ⟨l1, q, l2, s, hsplit, hnone, hsq, hrw⟩
      · exact Or.inl h
      · refine Or.inr ⟨q0 :: l1, q, l2, s, by simp [hsplit], ?_, hsq, hrw⟩
        intro x hx
        rcases List.mem_cons.mp hx with rfl | hx
        · exact hq
        · exact hnone x hx
    | some s0 =>
      rw [fit_fold_cons_fresh rest hq]
      exact Or.inr ⟨[], q0, rest, s0, rfl, by simp, hq, rfl⟩

/-- The fold yields none exactly when no element qualifies. -/
theorem fit_fold_none_iff (score : α → Option ℚ) :
    ∀ l : List α, (fit_fold score l none = none ↔ ∀ q ∈ l, score q = none)
  | [] => by simp [fit_fold]
  | q0 :: rest => by
    cases hq : score q0 with
    | none =>
      rw [fit_fold_cons_none rest _ hq, fit_fold_none_iff score rest]
      constructor
      · intro h q hqm
        rcases List.mem_cons.mp hqm with rfl | hqm
        · exact hq
        · exact h q hqm
      · intro h q hqm
        exact h q (List.mem_cons_of_mem q0 hqm)
    | some s0 =>
      rw [fit_fold_cons_fresh rest hq]
      obtain ⟨p, s, heq, -, -, -⟩ := fit_fold_some score rest q0 s0
      rw [heq]
      simp only [reduceCtorEq, false_iff, not_forall]
      exact ⟨q0, List.mem_cons_self q0 rest, by simp [hq]⟩

/-- C2.  The grid search of fit_gap_z_detector is optimal and
deterministic: a returned combination occurs in the canonical
enumeration of the grid, qualifies, scores at least every qualifying
combination, and strictly outscores every qualifying combination that
occurs earlier (so ties go to the earliest); and the result is absent
exactly when no combination qualifies.  A combination qualifies
(fit_score is some) precisely when its trial ledger is nonempty and its
hit rate is not below min_hit_rate, with the score being the median
trial return. -/
theorem fit_gap_z_detector_optimal (data : List Bar) (windows : List ℕ)
    (k_lows : List ℚ) (max_holds : List ℕ) (min_hit_rate : ℚ) :
    (∀ p, fit_gap_z_detector data windows k_lows max_holds min_hit_rate = some p →
      ∃ l1 l2 s, grid_combos windows k_lows max_holds = l1 ++ p :: l2 ∧
        fit_score data min_hit_rate p = some s ∧
        (∀ q ∈ grid_combos windows k_lows max_holds, ∀ t,
          fit_score data min_hit_rate q = some t → t ≤ s) ∧
        (∀ q ∈ l1, ∀ t, fit_score data min_hit_rate q = some t → t < s)) ∧
    (fit_gap_z_detector data windows k_lows max_holds min_hit_rate = none ↔
      ∀ q ∈ grid_combos windows k_lows max_holds,
        fit_score data min_hit_rate q = none) ∧
    (∀ q s, fit_score data min_hit_rate q = some s ↔
      (trial_ledger data q ≠ [] ∧
        ¬ hit_rate ((trial_ledger data q).map (·.return_pct)) < min_hit_rate ∧
        s = median ((trial_ledger data q).map (·.return_pct)))) := by
  refine ⟨?_, ?_, ?_⟩
  · intro p hp
    unfold fit_gap_z_detector at hp
    rcases fit_fold_none_start (fit_score data min_hit_rate)
        (grid_combos windows k_lows max_holds) with h | ⟨l1, q, l2, s0, hsplit, hnone, hsq, hrw⟩
    · rw [h] at hp; exact absurd hp (by simp)
    · obtain ⟨p', s, heq, hle, hmax2, hcase⟩ :=
        fit_fold_some (fit_score data min_hit_rate) l2 q s0
      rw [hrw, heq] at hp
      have hpp : p' = p := by simpa using hp
      subst hpp
      have hmax : ∀ x ∈ grid_combos windows k_lows max_holds, ∀ t,
          fit_score data min_hit_rate x = some t → t ≤ s := by
        intro x hx t hxt
        rw [hsplit] at hx
        rcases List.mem_append.mp hx with hx | hx
        · rw [hnone x hx] at hxt; exact absurd hxt (by simp)
        · rcases List.mem_cons.mp hx with rfl | hx
          · rw [hsq] at hxt
            exact (Option.some_inj.mp hxt) ▸ hle
          · exact hmax2 x hx t hxt
      rcases hcase with ⟨hpq, hss⟩ | ⟨hlt, l21, l22, hsplit2, hsp, hstrict⟩
      · refine ⟨l1, l2, s, by rw [hsplit, hpq], by rw [hpq, hss]; exact hsq,
          hmax, ?_⟩
        intro x hx t hxt
        rw [hnone x hx] at hxt; exact absurd hxt (by simp)
      · refine ⟨l1 ++ q :: l21, l22, s, ?_, hsp, hmax, ?_⟩
        · rw [hsplit, hsplit2]; simp
        · intro x hx t hxt
          rcases List.mem_append.mp hx with hx | hx
          · rw [hnone x hx] at hxt; exact absurd hxt (by simp)
          · rcases List.mem_cons.mp hx with rfl | hx
            · rw [hsq] at hxt
              exact (Option.some_inj.mp hxt) ▸ hlt
            · exact hstrict x hx t hxt
  · unfold fit_gap_z_detector
    rw [← fit_fold_none_iff (fit_score data min_hit_rate)]
    cases fit_fold (fit_score data min_hit_rate)
        (grid_combos windows k_lows max_holds) none with
    | none => simp
    | some v => simp
  · intro q s
    cases hl : trial_ledger data q with
    | nil =>
      unfold fit_score
      rw [hl]
      simp
    | cons t0 rest =>
      unfold fit_score
      rw [hl]
      by_cases hr : hit_rate ((t0 :: rest).map (·.return_pct)) < min_hit_rate
      · rw [if_neg (by simp : ¬ ((t0 :: rest).isEmpty = true)), if_pos hr]
        constructor
        · intro h; exact absurd h (by simp)
        · rintro ⟨-, hr2, -⟩; exact absurd hr hr2
      · rw [if_neg (by simp : ¬ ((t0 :: rest).isEmpty = true)), if_neg hr]
        constructor
        · intro h
          exact ⟨by simp, hr, (Option.some_inj.mp h).symm⟩
        · rintro ⟨-, -, rfl⟩
          rfl

set_option maxHeartbeats 2000000 in
/-- Concrete check of the grid search on the specification's fixture:
the single grid point qualifies and is returned. -/
theorem fit_gap_z_detector_concrete :
    fit_gap_z_detector
      [⟨100,100⟩, ⟨100,100⟩, ⟨100,100⟩, ⟨90,100⟩, ⟨100,100⟩, ⟨100,100⟩]
      [3] [-1] [1] 0 = some ⟨3, -1, 1⟩ := by
  have hledger : trial_ledger
      [⟨100,100⟩, ⟨100,100⟩, ⟨100,100⟩, ⟨90,100⟩, ⟨100,100⟩, ⟨100,100⟩]
      ⟨3, -1, 1⟩ =
      [{ entry_date := 4, exit_date := 5, hold_days := 1, entry_price := 100,
         entry_price_adj := 100 * (1 + 5/10000), exit_price := 100,
         return_pct := (100 - 100 * (1 + 5/10000)) / (100 * (1 + 5/10000)),
         fees_bps := 0, slippage_bps := 5 }] := by
    norm_num [trial_ledger, run_backtest, run_backtest_state, signal_gapz,
      gap_pct_series, List.range_succ, zscore_rep, rolling_mean, rolling_var,
      window_vals, min_periods_default, zlt, signal_indices, backtest_step,
      calculate_slippage_bps, fit_backtest_config, List.filterMap_cons,
      List.filterMap_nil]
  have hscore : fit_score
      [⟨100,100⟩, ⟨100,100⟩, ⟨100,100⟩, ⟨90,100⟩, ⟨100,100⟩, ⟨100,100⟩] 0
      ⟨3, -1, 1⟩ = some (-(1/2001)) := by
    unfold fit_score
    rw [hledger]
    norm_num [hit_rate, median, stableSort, insertBefore]
  unfold fit_gap_z_detector
  rw [show grid_combos [3] [-1] [1] = [(⟨3, -1, 1⟩ : GridParams)] by
      simp [grid_combos],
    fit_fold_cons_fresh [] hscore]
  rfl

/-! ## Lemmas about the rolling z-score -/

theorem neg_pow_two_eq (a : ℝ) : (-a) ^ 2 = a ^ 2 := by ring

theorem rsq_lt_rsq_iff {a b : ℝ} (ha : 0 ≤ a) (hb : 0 ≤ b) :
    a ^ 2 < b ^ 2 ↔ a < b :=
  ⟨fun h => lt_of_pow_lt_pow_left₀ 2 hb h,
   fun h => pow_lt_pow_left₀ h ha (by norm_num)⟩

/-- A sample variance is nonnegative. -/
theorem rolling_var_nonneg {s : List (Option ℚ)} {window mp t : ℕ} {v : ℚ}
    (h : rolling_var s window mp t = some v) : 0 ≤ v := by
  unfold rolling_var at h
  by_cases hc : (window_vals s window t).length < mp ∨ (window_vals s window t).length < 2
  · rw [if_pos hc] at h; exact absurd h (by simp)
  · rw [if_neg hc] at h
    have hv := Option.some_inj.mp h
    subst hv
    push_neg at hc
    apply div_nonneg
    · apply List.sum_nonneg
      intro x hx
      obtain ⟨y, -, rfl⟩ := List.mem_map.mp hx
      positivity
    · have : (2 : ℚ) ≤ (window_vals s window t).length := by exact_mod_cast hc.2
      linarith

/-- The squaring test zlt decides the real comparison
num / sqrt v < k whenever the variance is positive. -/
theorem zlt_correct {num v k : ℚ} (hv : 0 < v) :
    zlt num v k = true ↔ ((num : ℝ) / Real.sqrt (v : ℝ) < (k : ℝ)) := by
  have hvR : (0 : ℝ) < (v : ℝ) := by exact_mod_cast hv
  have hs : 0 < Real.sqrt (v : ℝ) := Real.sqrt_pos.mpr hvR
  have hsq : Real.sqrt (v : ℝ) ^ 2 = (v : ℝ) := Real.sq_sqrt hvR.le
  rw [div_lt_iff₀ hs]
  unfold zlt
  by_cases hk : (0 : ℚ) ≤ k
  · rw [if_pos hk]
    simp only [Bool.or_eq_true, Bool.and_eq_true, decide_eq_true_eq]
    have hkR : (0 : ℝ) ≤ (k : ℝ) := by exact_mod_cast hk
    constructor
    · rintro (hn | ⟨hn, hlt⟩)
      · have hnR : (num : ℝ) < 0 := by exact_mod_cast hn
        exact lt_of_lt_of_le hnR (mul_nonneg hkR hs.le)
      · have hnR : (0 : ℝ) ≤ (num : ℝ) := by exact_mod_cast hn
        have h2 : ((num : ℝ)) ^ 2 < ((k : ℝ)) ^ 2 * (v : ℝ) := by exact_mod_cast hlt
        have h3 : ((num : ℝ)) ^ 2 < ((k : ℝ) * Real.sqrt (v : ℝ)) ^ 2 := by
          rw [mul_pow, hsq]; exact h2
        exact (rsq_lt_rsq_iff hnR (mul_nonneg hkR hs.le)).mp h3
    · intro h
      by_cases hn : num < 0
      · exact Or.inl hn
      · push_neg at hn
        refine Or.inr ⟨hn, ?_⟩
        have hnR : (0 : ℝ) ≤ (num : ℝ) := by exact_mod_cast hn
        have h2 := (rsq_lt_rsq_iff hnR (mul_nonneg hkR hs.le)).mpr h
        rw [mul_pow, hsq] at h2
        exact_mod_cast h2
  · rw [if_neg hk]
    push_neg at hk
    have hkR : (k : ℝ) < 0 := by exact_mod_cast hk
    have hks : (k : ℝ) * Real.sqrt (v : ℝ) < 0 := mul_neg_of_neg_of_pos hkR hs
    simp only [Bool.and_eq_true, decide_eq_true_eq]
    constructor
    · rintro ⟨hn, hlt⟩
      have hnR : (num : ℝ) < 0 := by exact_mod_cast hn
      have h2 : ((k : ℝ)) ^ 2 * (v : ℝ) < ((num : ℝ)) ^ 2 := by exact_mod_cast hlt
      have ha : (0 : ℝ) ≤ -((k : ℝ) * Real.sqrt (v : ℝ)) := by linarith
      have hb : (0 : ℝ) ≤ -((num : ℝ)) := by linarith
      have hsq2 : (-((k : ℝ) * Real.sqrt (v : ℝ))) ^ 2 < (-((num : ℝ))) ^ 2 := by
        rw [neg_pow_two_eq, neg_pow_two_eq, mul_pow, hsq]
        exact h2
      have := (rsq_lt_rsq_iff ha hb).mp hsq2
      linarith
    · intro h
      have hn : num < 0 := by
        have hnR : (num : ℝ) < 0 := lt_trans h hks
        exact_mod_cast hnR
      refine ⟨hn, ?_⟩
      have hnR : (num : ℝ) < 0 := by exact_mod_cast hn
      have ha : (0 : ℝ) ≤ -((k : ℝ) * Real.sqrt (v : ℝ)) := by linarith
      have hb : (0 : ℝ) ≤ -((num : ℝ)) := by linarith
      have hlt2 : -((k : ℝ) * Real.sqrt (v : ℝ)) < -((num : ℝ)) := by linarith
      have hsq2 := (rsq_lt_rsq_iff ha hb).mpr hlt2
      rw [neg_pow_two_eq, neg_pow_two_eq, mul_pow, hsq] at hsq2
      exact_mod_cast hsq2

/-- The real z-score is defined exactly when the exact representation
is, and its value is the represented quotient. -/
theorem zscoreR_eq_rep (s : List (Option ℚ)) (window mp t : ℕ) :
    (zscoreR s window mp t = none ↔ zscore_rep s window mp t = none) ∧
    (∀ num v, zscore_rep s window mp t = some (num, v) →
      zscoreR s window mp t = some ((num : ℝ) / Real.sqrt (v : ℝ))) := by
  unfold zscoreR zscore_rep
  cases hx : s.getD t none with
  | none => simp
  | some x =>
    cases hm : rolling_mean s window mp t with
    | none => simp
    | some m =>
      cases hv : rolling_var s window mp t with
      | none => simp
      | some v =>
        dsimp only
        have hv0 : 0 ≤ v := rolling_var_nonneg hv
        by_cases hz : v = 0
        · subst hz
          simp [Real.sqrt_zero]
        · have hpos : (0 : ℝ) < (v : ℝ) := by
            have : 0 < v := lt_of_le_of_ne hv0 (Ne.symm hz)
            exact_mod_cast this
          rw [if_neg (by positivity : Real.sqrt (v : ℝ) ≠ 0), if_neg hz]
          constructor
          · simp
          · intro num v2 h
            obtain ⟨h1, h2⟩ := Prod.mk.injEq .. ▸ Option.some_inj.mp h
            subst h1; subst h2
            push_cast
            rfl

theorem getD_map_range (f : ℕ → α) (n t : ℕ) (d : α) :
    ((List.range n).map f).getD t d = if t < n then f t else d := by
  by_cases h : t < n
  · rw [if_pos h]
    rw [List.getD_eq_getElem?_getD]
    simp [List.getElem?_map, List.getElem?_range h]
  · rw [if_neg h]
    apply List.getD_eq_default
    simpa using Nat.le_of_not_lt h

/-- C8.  The gap-z signal at position t is true exactly when the real
rolling z-score (the (gap - mean) / std the Python code computes, with
the zero-std case replaced by NaN first) is defined and strictly below
k_low; an undefined z-score — in particular a zero rolling standard
deviation, i.e. zero rolling variance, or fewer valid observations than
the minimum-periods floor — always yields signal false. -/
theorem signal_gapz_claim (data : List Bar) (window : ℕ) (k_low : ℚ) (t : ℕ) :
    ((signal_gapz data window k_low).getD t false = true ↔
      ∃ z : ℝ, zscoreR (gap_pct_series data) window (min_periods_default window) t =
        some z ∧ z < (k_low : ℝ)) ∧
    (rolling_var (gap_pct_series data) window (min_periods_default window) t = some 0 →
      zscoreR (gap_pct_series data) window (min_periods_default window) t = none) ∧
    ((window_vals (gap_pct_series data) window t).length <
        min_periods_default window →
      zscoreR (gap_pct_series data) window (min_periods_default window) t = none) := by
  refine ⟨?_, ?_, ?_⟩
  · unfold signal_gapz
    rw [getD_map_range]
    by_cases ht : t < data.length
    · rw [if_pos ht]
      cases hrep : zscore_rep (gap_pct_series data) window (min_periods_default window) t with
      | none =>
        rw [((zscoreR_eq_rep _ _ _ _).1).mpr hrep]
        simp
      | some p =>
        obtain ⟨num, v⟩ := p
        rw [(zscoreR_eq_rep _ _ _ _).2 num v hrep]
        have hvpos : 0 < v := by
          unfold zscore_rep at hrep
          cases hx : (gap_pct_series data).getD t none with
          | none => rw [hx] at hrep; exact absurd hrep (by simp)
          | some x =>
            cases hm : rolling_mean (gap_pct_series data) window
                (min_periods_default window) t with
            | none => rw [hx, hm] at hrep; exact absurd hrep (by simp)
            | some m =>
              cases hv : rolling_var (gap_pct_series data) window
                  (min_periods_default window) t with
              | none => rw [hx, hm, hv] at hrep; exact absurd hrep (by simp)
              | some v2 =>
                rw [hx, hm, hv] at hrep
                dsimp only at hrep
                by_cases hz : v2 = 0
                · rw [if_pos hz] at hrep; exact absurd hrep (by simp)
                · rw [if_neg hz] at hrep
                  obtain ⟨-, h2⟩ := Prod.mk.injEq .. ▸ Option.some_inj.mp hrep
                  subst h2
                  exact lt_of_le_of_ne (rolling_var_nonneg hv) (Ne.symm hz)
        rw [zlt_correct hvpos]
        constructor
        · intro h
          exact ⟨_, rfl, h⟩
        · rintro ⟨z, hz, hlt⟩
          rwa [← Option.some_inj.mp hz] at hlt
    · rw [if_neg ht]
      simp only [Bool.false_eq_true, false_iff, not_exists]
      intro z hz
      have hlen : (gap_pct_series data).length = data.length := by
        simp [gap_pct_series]
      have hnone : (gap_pct_series data).getD t none = none :=
        List.getD_eq_default _ _ (hlen ▸ Nat.le_of_not_lt ht)
      unfold zscoreR at hz
      rw [hnone] at hz
      exact absurd hz.1 (by simp)
  · intro hv
    unfold zscoreR
    cases hx : (gap_pct_series data).getD t none with
    | none => rfl
    | some x =>
      cases hm : rolling_mean (gap_pct_series data) window
          (min_periods_default window) t with
      | none => rfl
      | some m =>
        rw [hv]
        dsimp only
        rw [if_pos (by push_cast [Real.sqrt_zero]; rfl)]
  · intro hshort
    unfold zscoreR
    have hv : rolling_var (gap_pct_series data) window (min_periods_default window) t
        = none := by
      unfold rolling_var
      rw [if_pos (Or.inl hshort)]
    cases hx : (gap_pct_series data).getD t none with
    | none => rfl
    | some x =>
      cases hm : rolling_mean (gap_pct_series data) window
          (min_periods_default window) t with
      | none => rfl
      | some m => rw [hv]

/-! ## Lemmas about the stable sort -/

theorem insertBefore_perm (before : α → α → Bool) (y : α) :
    ∀ l : List α, (insertBefore before y l).Perm (y :: l)
  | [] => List.Perm.refl _
  | x :: xs => by
    unfold insertBefore
    by_cases h : before y x
    · rw [if_pos h]
    · rw [if_neg h]
      exact ((insertBefore_perm before y xs).cons x).trans (List.Perm.swap y x xs)

theorem stableSort_perm_aux (before : α → α → Bool) :
    ∀ (l acc : List α),
      (l.foldl (fun acc y => insertBefore before y acc) acc).Perm (acc ++ l)
  | [], acc => by simp
  | y :: l, acc => by
    rw [List.foldl_cons]
    exact (stableSort_perm_aux before l _).trans
      (((insertBefore_perm before y acc).append_right l).trans
        List.perm_middle.symm)

theorem stableSort_perm (before : α → α → Bool) (l : List α) :
    (stableSort before l).Perm l :=
  stableSort_perm_aux before l []

theorem mem_insertBefore {before : α → α → Bool} {y a : α} {l : List α} :
    a ∈ insertBefore before y l ↔ a = y ∨ a ∈ l := by
  rw [(insertBefore_perm before y l).mem_iff, List.mem_cons]

theorem pairwise_insertBefore {before : α → α → Bool}
    (hasym : ∀ a b, before a b = true → before b a = false)
    (htrans : ∀ a b c, before a b = true → before b c = true → before a c = true)
    (y : α) :
    ∀ l : List α, l.Pairwise (fun a b => before b a = false) →
      (insertBefore before y l).Pairwise (fun a b => before b a = false)
  | [], _ => by simp [insertBefore]
  | x :: xs, hl => by
    obtain ⟨hx, hxs⟩ := List.pairwise_cons.mp hl
    unfold insertBefore
    by_cases h : before y x
    · rw [if_pos h]
      refine List.pairwise_cons.mpr ⟨?_, hl⟩
      intro z hz
      rcases List.mem_cons.mp hz with rfl | hz
      · exact hasym y z h
      · cases hb : before z y
        · rfl
        · exfalso
          have hzx := htrans z y x hb h
          rw [hx z hz] at hzx
          exact Bool.false_ne_true hzx
    · rw [if_neg h]
      rw [Bool.not_eq_true] at h
      refine List.pairwise_cons.mpr ⟨?_, pairwise_insertBefore hasym htrans y xs hxs⟩
      intro z hz
      rcases mem_insertBefore.mp hz with rfl | hz
      · exact h
      · exact hx z hz

theorem pairwise_stableSort_aux {before : α → α → Bool}
    (hasym : ∀ a b, before a b = true → before b a = false)
    (htrans : ∀ a b c, before a b = true → before b c = true → before a c = true) :
    ∀ (l acc : List α), acc.Pairwise (fun a b => before b a = false) →
      (l.foldl (fun acc y => insertBefore before y acc) acc).Pairwise
        (fun a b => before b a = false)
  | [], _, hacc => hacc
  | y :: l, acc, hacc => by
    rw [List.foldl_cons]
    exact pairwise_stableSort_aux hasym htrans l _
      (pairwise_insertBefore hasym htrans y acc hacc)

/-- The stable sort is ordered: no element strictly precedes (for the
given test) an element placed before it. -/
theorem pairwise_stableSort {before : α → α → Bool}
    (hasym : ∀ a b, before a b = true → before b a = false)
    (htrans : ∀ a b c, before a b = true → before b c = true → before a c = true)
    (l : List α) :
    (stableSort before l).Pairwise (fun a b => before b a = false) :=
  pairwise_stableSort_aux hasym htrans l [] (by simp)

theorem lt_opt_asymm {a b : Option ℚ} (h : lt_opt a b = true) :
    lt_opt b a = false := by
  cases a <;> cases b <;> simp_all [lt_opt] <;> linarith

theorem lt_opt_trans {a b c : Option ℚ} (h1 : lt_opt a b = true)
    (h2 : lt_opt b c = true) : lt_opt a c = true := by
  cases a <;> cases b <;> cases c <;> simp_all [lt_opt] <;> linarith

/-- C4, amended.  Universe selection ranks the qualifying symbols by
median turnover in non-increasing order via a stable sort with no
further key, so exact turnover ties keep the input iteration order —
they are NOT broken by ascending symbol name, and the selected universe
can depend on the iteration order of the input symbols (see the
counterexample). -/
theorem select_universe_ranking (all_data : List (String × List UBar))
    (cfg : UniverseConfig) (t0 : ℕ) (out : List String)
    (h : select_universe all_data cfg t0 = some out) :
    ∃ ranked : List (String × Option ℚ),
      out = (ranked.take cfg.size).map Prod.fst ∧
      ranked.Pairwise (fun a b => lt_opt a.2 b.2 = false) ∧
      ranked.Perm (qualified_symbols all_data cfg t0) := by
  unfold select_universe at h
  by_cases hq : (qualified_symbols all_data cfg t0).isEmpty
  · rw [if_pos hq] at h
    exact absurd h (by simp)
  · rw [if_neg hq] at h
    refine ⟨stableSort (fun a b => lt_opt b.2 a.2)
        (qualified_symbols all_data cfg t0),
      (Option.some_inj.mp h).symm, ?_, stableSort_perm _ _⟩
    have hpw := @pairwise_stableSort _
      (fun a b : String × Option ℚ => lt_opt b.2 a.2)
      (fun a b hab => lt_opt_asymm hab)
      (fun a b c h1 h2 => lt_opt_trans h2 h1)
      (qualified_symbols all_data cfg t0)
    exact hpw

set_option maxHeartbeats 2000000 in
theorem select_universe_ranking_witness :
    ∃ ranked : List (String × Option ℚ),
      ["B", "A"] = (ranked.take 10).map Prod.fst ∧
      ranked.Pairwise (fun a b => lt_opt a.2 b.2 = false) ∧
      ranked.Perm (qualified_symbols
        [("B", [⟨0, 100, 1000⟩]), ("A", [⟨0, 100, 1000⟩])]
        ⟨[], 1, 10, 0, 10⟩ 0) :=
  select_universe_ranking [("B", [⟨0, 100, 1000⟩]), ("A", [⟨0, 100, 1000⟩])]
    ⟨[], 1, 10, 0, 10⟩ 0 ["B", "A"] (by
      norm_num [select_universe, qualified_symbols, compute_turnover, lt_opt,
        stableSort, insertBefore, median, List.filter, List.filterMap,
        List.getLastD, List.isEmpty, List.contains, List.foldl, List.take])

set_option maxHeartbeats 2000000 in
/-- C4, counterexample to the claim as stated: two symbols with exactly
equal median turnover (both 0 under a min_turnover of 0) are returned in
input iteration order, not in ascending name order, and permuting the
input dict changes the selected, ranked universe. -/
theorem select_universe_ranking_counterexample :
    select_universe [("B", [⟨0, 100, 1000⟩]), ("A", [⟨0, 100, 1000⟩])]
      ⟨[], 1, 10, 0, 10⟩ 0 = some ["B", "A"] ∧
    select_universe [("A", [⟨0, 100, 1000⟩]), ("B", [⟨0, 100, 1000⟩])]
      ⟨[], 1, 10, 0, 10⟩ 0 = some ["A", "B"] ∧
    strLt "A" "B" = true ∧
    (qualified_symbols [("B", [⟨0, 100, 1000⟩]), ("A", [⟨0, 100, 1000⟩])]
      ⟨[], 1, 10, 0, 10⟩ 0).map Prod.snd = [some 0, some 0] := by
  refine ⟨?_, ?_, by decide, ?_⟩ <;>
    norm_num [select_universe, qualified_symbols, compute_turnover, lt_opt,
      stableSort, insertBefore, median, strLt, charsLt, List.filter,
      List.filterMap, List.getLastD, List.isEmpty, List.contains, List.foldl,
      List.take]

/-! ## The admission order is a strict order -/

theorem charsLt_asymm : ∀ {a b : List Char}, charsLt a b = true → charsLt b a = false
  | [], [], h => by simp [charsLt] at h
  | [], _ :: _, _ => by simp [charsLt]
  | _ :: _, [], h => by simp [charsLt] at h
  | x :: xs, y :: ys, h => by
    unfold charsLt at h ⊢
    rcases Nat.lt_trichotomy x.toNat y.toNat with hxy | hxy | hxy
    · rw [if_neg (by omega), if_pos hxy]
    · rw [if_neg (by omega), if_neg (by omega)] at h ⊢
      exact charsLt_asymm h
    · rw [if_neg (by omega), if_pos hxy] at h
      exact absurd h (by simp)

theorem charsLt_trans : ∀ {a b c : List Char}, charsLt a b = true →
    charsLt b c = true → charsLt a c = true
  | [], [], _, h1, _ => by simp [charsLt] at h1
  | [], _ :: _, [], _, h2 => by simp [charsLt] at h2
  | [], _ :: _, _ :: _, _, _ => by simp [charsLt]
  | _ :: _, [], _, h1, _ => by simp [charsLt] at h1
  | _ :: _, _ :: _, [], _, h2 => by simp [charsLt] at h2
  | x :: xs, y :: ys, z :: zs, h1, h2 => by
    unfold charsLt at h1 h2 ⊢
    rcases Nat.lt_trichotomy x.toNat y.toNat with hxy | hxy | hxy <;>
      rcases Nat.lt_trichotomy y.toNat z.toNat with hyz | hyz | hyz
    all_goals first
      | (rw [if_pos (by omega)])
      | (rw [if_neg (by omega), if_neg (by omega)] at h1 h2 ⊢
         exact charsLt_trans h1 h2)
      | (rw [if_neg (by omega), if_pos (by omega)] at h1
         exact absurd h1 (by simp))
      | (rw [if_neg (by omega), if_pos (by omega)] at h2
         exact absurd h2 (by simp))

theorem strLt_asymm {a b : String} (h : strLt a b = true) : strLt b a = false :=
  charsLt_asymm h

theorem strLt_trans {a b c : String} (h1 : strLt a b = true)
    (h2 : strLt b c = true) : strLt a c = true :=
  charsLt_trans h1 h2

theorem mt_before_asymm {a b : Option ℚ} (h : mt_before a b = true) :
    mt_before b a = false := by
  cases a <;> cases b <;> simp_all [mt_before, lt_opt] <;> linarith

theorem mt_before_trans {a b c : Option ℚ} (h1 : mt_before a b = true)
    (h2 : mt_before b c = true) : mt_before a c = true := by
  cases a <;> cases b <;> cases c <;> simp_all [mt_before, lt_opt] <;> linarith

theorem mt_before_eq_of_ties {a b : Option ℚ} (h1 : mt_before a b = false)
    (h2 : mt_before b a = false) : a = b := by
  cases a <;> cases b <;> simp_all [mt_before, lt_opt]
  linarith

theorem row_before_asymm (mt : String → Option ℚ) (x y : SignalRow)
    (h : row_before mt x y = true) : row_before mt y x = false := by
  unfold row_before at h ⊢
  rcases lt_trichotomy x.signal y.signal with hs | hs | hs
  · rw [if_neg (by linarith), if_pos hs] at h
    exact absurd h (by simp)
  · rw [if_neg (by rw [hs]; exact lt_irrefl _),
      if_neg (by rw [hs]; exact lt_irrefl _)] at h ⊢
    by_cases hm1 : mt_before (mt x.symbol) (mt y.symbol)
    · rw [if_neg (by rw [mt_before_asymm hm1]; simp), if_pos hm1]
    · rw [if_neg hm1] at h
      by_cases hm2 : mt_before (mt y.symbol) (mt x.symbol)
      · rw [if_pos hm2] at h
        exact absurd h (by simp)
      · rw [if_neg hm2] at h
        rw [if_neg hm2, if_neg hm1]
        exact strLt_asymm h
  · rw [if_neg (by linarith), if_pos hs]

theorem row_before_trans (mt : String → Option ℚ) (x y z : SignalRow)
    (h1 : row_before mt x y = true) (h2 : row_before mt y z = true) :
    row_before mt x z = true := by
  unfold row_before at h1 h2 ⊢
  rcases lt_trichotomy y.signal x.signal with hxy | hxy | hxy <;>
    rcases lt_trichotomy z.signal y.signal with hyz | hyz | hyz
  · rw [if_pos (by linarith)]
  · rw [if_pos (by rw [hyz]; exact hxy)]
  · rw [if_neg (by linarith), if_pos hyz] at h2
    exact absurd h2 (by simp)
  · rw [if_pos (by rw [← hxy]; exact hyz)]
  · rw [if_neg (by rw [hxy]; exact lt_irrefl _),
      if_neg (by rw [hxy]; exact lt_irrefl _)] at h1
    rw [if_neg (by rw [hyz]; exact lt_irrefl _),
      if_neg (by rw [hyz]; exact lt_irrefl _)] at h2
    rw [if_neg (by rw [hyz, hxy]; exact lt_irrefl _),
      if_neg (by rw [hyz, hxy]; exact lt_irrefl _)]
    by_cases hm1 : mt_before (mt x.symbol) (mt y.symbol)
    · by_cases hm2 : mt_before (mt y.symbol) (mt z.symbol)
      · rw [if_pos (mt_before_trans hm1 hm2)]
      · rw [if_neg hm2] at h2
        by_cases hm2b : mt_before (mt z.symbol) (mt y.symbol)
        · rw [if_pos hm2b] at h2
          exact absurd h2 (by simp)
        · rw [if_neg hm2b] at h2
          have heq := mt_before_eq_of_ties
            (eq_false_of_ne_true hm2) (eq_false_of_ne_true hm2b)
          rw [if_pos (by rw [← heq]; exact hm1)]
    · rw [if_neg hm1] at h1
      by_cases hm1b : mt_before (mt y.symbol) (mt x.symbol)
      · rw [if_pos hm1b] at h1
        exact absurd h1 (by simp)
      · rw [if_neg hm1b] at h1
        have heq := mt_before_eq_of_ties
          (eq_false_of_ne_true hm1) (eq_false_of_ne_true hm1b)
        by_cases hm2 : mt_before (mt y.symbol) (mt z.symbol)
        · rw [if_pos (by rw [heq]; exact hm2)]
        · rw [if_neg hm2] at h2
          by_cases hm2b : mt_before (mt z.symbol) (mt y.symbol)
          · rw [if_pos hm2b] at h2
            exact absurd h2 (by simp)
          · rw [if_neg hm2b] at h2
            rw [if_neg (by rw [heq]; exact hm2),
              if_neg (by rw [heq]; exact hm2b)]
            exact strLt_trans h1 h2
  · rw [if_neg (by linarith), if_pos hyz] at h2
    exact absurd h2 (by simp)
  · rw [if_neg (by linarith), if_pos hxy] at h1
    exact absurd h1 (by simp)
  · rw [if_neg (by linarith), if_pos hxy] at h1
    exact absurd h1 (by simp)
  · rw [if_neg (by linarith), if_pos hxy] at h1
    exact absurd h1 (by simp)

/-- C5.  The admission step emits nothing when no slot is free or no
candidate exists; with the re-entry lockout on, no admitted position's
symbol is already open; and otherwise the emitted positions are exactly
the top available_slots remaining candidates under the strict
three-level order (signal descending, median turnover descending,
symbol ascending): the remaining candidates split into the selected
rows followed by the rejected rest, ordered so that no later row
strictly precedes an earlier one, and the number admitted is
min(available_slots, remaining). -/
theorem select_positions_claim (signals : List SignalRow)
    (all_data : List (String × List PRow)) (cfg : PortfolioCfg)
    (opens : List String) :
    (((cfg.max_concurrent : ℤ) - opens.length ≤ 0 ∨ signals = []) →
      select_positions signals all_data cfg opens = []) ∧
    (cfg.reentry_lockout.getD true = true →
      ∀ p ∈ select_positions signals all_data cfg opens, p.symbol ∉ opens) ∧
    (0 < (cfg.max_concurrent : ℤ) - opens.length → signals ≠ [] →
      ∃ sel rest : List SignalRow,
        (sel ++ rest).Perm (if cfg.reentry_lockout.getD true then
          signals.filter (fun r => !(opens.contains r.symbol)) else signals) ∧
        (sel ++ rest).Pairwise (fun a b =>
          row_before (median_turnover_of all_data) b a = false) ∧
        select_positions signals all_data cfg opens = sel.map (fun r =>
          { symbol := r.symbol, entry_date := r.date,
            entry_price := open_price_at all_data r.symbol r.date,
            size := cfg.position_size }) ∧
        sel.length = min ((cfg.max_concurrent : ℤ) - opens.length).toNat
          (if cfg.reentry_lockout.getD true then
            signals.filter (fun r => !(opens.contains r.symbol))
          else signals).length) := by
  set slots : ℤ := (cfg.max_concurrent : ℤ) - opens.length with hslots
  set cand : List SignalRow := if cfg.reentry_lockout.getD true = true then
    signals.filter (fun r => !(opens.contains r.symbol)) else signals with hcand
  set sorted : List SignalRow :=
    stableSort (row_before (median_turnover_of all_data)) cand with hsorted
  have hperm : sorted.Perm cand := stableSort_perm _ _
  have hpw : sorted.Pairwise (fun a b =>
      row_before (median_turnover_of all_data) b a = false) :=
    pairwise_stableSort
      (row_before_asymm _) (row_before_trans _) cand
  refine ⟨?_, ?_, ?_⟩
  · intro h
    simp only [select_positions]
    rw [if_pos]
    rcases h with h | h
    · exact Or.inl h
    · exact Or.inr (by rw [h]; rfl)
  · intro hlock p hp hmem
    simp only [select_positions] at hp
    by_cases hguard : slots ≤ 0 ∨ signals.isEmpty = true
    · rw [if_pos hguard] at hp
      exact absurd hp (by simp)
    · rw [if_neg hguard] at hp
      rw [← hcand, ← hsorted] at hp
      by_cases hsel : ((sorted.take slots.toNat).isEmpty = true)
      · rw [if_pos hsel] at hp
        exact absurd hp (by simp)
      · rw [if_neg hsel] at hp
        obtain ⟨r, hr, hpr⟩ := List.mem_map.mp hp
        have hr3 : r ∈ cand := hperm.mem_iff.mp (List.take_subset _ _ hr)
        rw [hcand, if_pos hlock] at hr3
        have hnc := (List.mem_filter.mp hr3).2
        rw [← hpr] at hmem
        simp only [Bool.not_eq_eq_eq_not, Bool.not_true] at hnc
        have hc2 : opens.contains r.symbol = true :=
          List.contains_iff_exists_mem_beq.mpr ⟨r.symbol, hmem, by simp⟩
        rw [hnc] at hc2
        exact Bool.false_ne_true hc2
  · intro hpos hne
    refine ⟨sorted.take slots.toNat, sorted.drop slots.toNat, ?_, ?_, ?_, ?_⟩
    · rw [List.take_append_drop]
      exact hperm
    · rw [List.take_append_drop]
      exact hpw
    · simp only [select_positions]
      rw [if_neg (by
        push_neg
        refine ⟨by omega, ?_⟩
        simp [List.isEmpty_iff, hne])]
      rw [← hcand, ← hsorted]
      by_cases hsel : ((sorted.take slots.toNat).isEmpty = true)
      · rw [if_pos hsel]
        rw [List.isEmpty_iff] at hsel
        rw [hsel]
        rfl
      · rw [if_neg hsel]
    · rw [List.length_take, hperm.length_eq]

/-- Concrete check of the admission step: one free slot, lockout drops
the open symbol, and the turnover tie-break picks the higher-turnover
candidate of two equal signals. -/
theorem select_positions_concrete :
    select_positions [⟨"A", 0, 1⟩, ⟨"B", 0, 2⟩, ⟨"C", 0, 2⟩]
      [("A", [⟨0, 10, 50⟩]), ("B", [⟨0, 20, 100⟩]), ("C", [⟨0, 30, 200⟩])]
      ⟨2, 7, some true⟩ ["A"] =
      [{ symbol := "C", entry_date := 0, entry_price := 30, size := 7 }] := by
  norm_num [select_positions, median_turnover_of, lookupData, open_price_at,
    stableSort, insertBefore, row_before, mt_before, lt_opt, strLt, charsLt,
    median, List.filter, List.contains, List.foldl, List.take] <;> decide

/-- C7.  The entry price of an admitted Position is the Open of the
signal date itself, not the next bar's Open: on a two-bar history with
opens 100 then 110 and a signal on the first date, the admitted position
enters at 100 while the next available open is 110.  (The code comments
this as a placeholder: a real system would use the next day's open, as
the specification states.)  The size does equal position_size. -/
theorem select_positions_entry_price_bug :
    select_positions [⟨"A", 0, 1⟩] [("A", [⟨0, 100, 1000⟩, ⟨1, 110, 1000⟩])]
      ⟨5, 7, some true⟩ [] =
      [{ symbol := "A", entry_date := 0, entry_price := 100, size := 7 }] ∧
    open_price_at [("A", [⟨0, 100, 1000⟩, ⟨1, 110, 1000⟩])] "A" 1 = 110 ∧
    (100 : ℚ) ≠ 110 := by
  refine ⟨?_, ?_, by norm_num⟩ <;>
    (norm_num [select_positions, median_turnover_of, lookupData, open_price_at,
      stableSort, insertBefore, row_before, mt_before, lt_opt, strLt, charsLt,
      median, List.filter, List.contains, List.foldl, List.take] <;> decide)

/-! ## Lemmas about calendar arithmetic and the walk-forward splitter -/

/-- A well-formed calendar date. -/
def ValidDate (d : Date) : Prop :=
  1 ≤ d.year ∧ 1 ≤ d.month ∧ d.month ≤ 12 ∧ 1 ≤ d.day ∧
    d.day ≤ daysInMonth d.year d.month

theorem daysInMonth_ge_28 (y m : ℕ) : 28 ≤ daysInMonth y m := by
  unfold daysInMonth
  split_ifs <;> omega

theorem addMonths_valid {d : Date} (hd : ValidDate d) (k : ℕ) :
    ValidDate (addMonths d k) := by
  obtain ⟨hy, hm1, hm2, hd1, hd2⟩ := hd
  obtain ⟨y, m, dy⟩ := d
  simp only at hy hm1 hm2 hd1 hd2
  unfold addMonths ValidDate
  dsimp only
  have h28 := daysInMonth_ge_28 ((y * 12 + (m - 1) + k) / 12)
    ((y * 12 + (m - 1) + k) % 12 + 1)
  have h12 : 12 ≤ y * 12 + (m - 1) + k := by nlinarith
  refine ⟨by omega, by omega, by omega, by omega, by omega⟩

theorem addMonths_day {d : Date} (hd : d.day ≤ 28) (k : ℕ) :
    (addMonths d k).day = d.day := by
  obtain ⟨y, m, dy⟩ := d
  simp only at hd
  unfold addMonths
  dsimp only
  have h28 := daysInMonth_ge_28 ((y * 12 + (m - 1) + k) / 12)
    ((y * 12 + (m - 1) + k) % 12 + 1)
  omega

/-- Adding months twice equals adding their sum, provided the day of
month is at most 28 so that no day clamping ever occurs.  (With a day of
29 — February 29 — this is false: see the counterexample to C6.) -/
theorem addMonths_addMonths (d : Date) (hd : d.day ≤ 28) (a b : ℕ) :
    addMonths (addMonths d a) b = addMonths d (a + b) := by
  have h1 : (addMonths d a).day = d.day := addMonths_day hd a
  obtain ⟨y, m, dy⟩ := d
  simp only [addMonths] at h1 ⊢
  rw [h1]
  have hidx : ((y * 12 + (m - 1) + a) / 12) * 12 +
      ((y * 12 + (m - 1) + a) % 12 + 1 - 1) + b =
      y * 12 + (m - 1) + (a + b) := by omega
  rw [hidx]

theorem addDay_subDay {d : Date} (hv : ValidDate d) : addDay (subDay d) = d := by
  obtain ⟨hy, hm1, hm2, hd1, hd2⟩ := hv
  obtain ⟨y, m, dy⟩ := d
  simp only at hy hm1 hm2 hd1 hd2
  unfold subDay
  dsimp only
  by_cases h1 : 1 < dy
  · rw [if_pos h1]
    unfold addDay
    dsimp only
    rw [if_pos (by omega)]
    have ha : dy - 1 + 1 = dy := by omega
    rw [ha]
  · rw [if_neg h1]
    by_cases h2 : 1 < m
    · rw [if_pos h2]
      unfold addDay
      dsimp only
      rw [if_neg (by omega), if_pos (by omega)]
      have ha : m - 1 + 1 = m := by omega
      have hb : dy = 1 := by omega
      rw [ha, hb]
    · rw [if_neg h2]
      unfold addDay
      dsimp only
      have h31 : daysInMonth (y - 1) 12 = 31 := by simp [daysInMonth]
      rw [if_neg (by omega), if_neg (by omega)]
      have ha : y - 1 + 1 = y := by omega
      have hb : m = 1 := by omega
      have hc : dy = 1 := by omega
      rw [ha, hb, hc]

theorem dateLt_subDay {d : Date} (hv : ValidDate d) :
    dateLt (subDay d) d = true := by
  obtain ⟨hy, hm1, hm2, hd1, hd2⟩ := hv
  obtain ⟨y, m, dy⟩ := d
  simp only at hy hm1 hm2 hd1 hd2
  unfold subDay
  dsimp only
  by_cases h1 : 1 < dy
  · rw [if_pos h1]
    unfold dateLt
    dsimp only
    simp only [Bool.or_eq_true, Bool.and_eq_true, decide_eq_true_eq, beq_iff_eq]
    exact Or.inr ⟨trivial, Or.inr ⟨trivial, by omega⟩⟩
  · rw [if_neg h1]
    by_cases h2 : 1 < m
    · rw [if_pos h2]
      unfold dateLt
      dsimp only
      simp only [Bool.or_eq_true, Bool.and_eq_true, decide_eq_true_eq, beq_iff_eq]
      exact Or.inr ⟨trivial, Or.inl (by omega)⟩
    · rw [if_neg h2]
      unfold dateLt
      dsimp only
      simp only [Bool.or_eq_true, Bool.and_eq_true, decide_eq_true_eq, beq_iff_eq]
      exact Or.inl (by omega)

theorem dateLt_addMonths {d : Date} (hv : ValidDate d) {k : ℕ} (hk : 1 ≤ k) :
    dateLt d (addMonths d k) = true := by
  obtain ⟨hy, hm1, hm2, hd1, hd2⟩ := hv
  obtain ⟨y, m, dy⟩ := d
  simp only at hy hm1 hm2 hd1 hd2
  unfold addMonths dateLt
  simp only [Bool.or_eq_true, Bool.and_eq_true, decide_eq_true_eq, beq_iff_eq]
  have h12 : m - 1 < 12 := by omega
  by_cases hyy : y < (y * 12 + (m - 1) + k) / 12
  · exact Or.inl hyy
  · refine Or.inr ⟨by omega, Or.inl (by omega)⟩

/-- Consecutive splits produced by the loop have exactly adjacent
out-of-sample windows whenever the cursor's day of month is at most 28
(so relativedelta month arithmetic never clamps), and the oos windows
advance strictly. -/
theorem splits_loop_adjacent (train_end : Date) (is_m oos_m : ℕ)
    (hoos : 1 ≤ oos_m) :
    ∀ (fuel : ℕ) (c : Date), ValidDate c → c.day ≤ 28 → ∀ i : ℕ,
      i + 1 < (splits_loop train_end is_m oos_m fuel c).length →
      (((splits_loop train_end is_m oos_m fuel c).getD (i+1) default).oos_start_date =
        addDay (((splits_loop train_end is_m oos_m fuel c).getD i default).oos_end_date) ∧
      dateLt (((splits_loop train_end is_m oos_m fuel c).getD i default).oos_end_date)
        (((splits_loop train_end is_m oos_m fuel c).getD (i+1) default).oos_start_date) = true ∧
      dateLt (((splits_loop train_end is_m oos_m fuel c).getD i default).oos_start_date)
        (((splits_loop train_end is_m oos_m fuel c).getD (i+1) default).oos_start_date) = true)
  | 0, c, _, _, i, hi => by simp [splits_loop] at hi
  | fuel + 1, c, hv, h28, i, hi => by
    by_cases hg : dateLe (addMonths c (is_m + oos_m)) train_end = true
    · have hexp : splits_loop train_end is_m oos_m (fuel + 1) c =
          ⟨c, subDay (addMonths c is_m), addMonths c is_m,
            subDay (addMonths (addMonths c is_m) oos_m)⟩ ::
          splits_loop train_end is_m oos_m fuel (addMonths c oos_m) := by
        simp only [splits_loop]
        rw [if_pos hg]
      rw [hexp] at hi ⊢
      cases i with
      | zero =>
        have hrest : 0 <
            (splits_loop train_end is_m oos_m fuel (addMonths c oos_m)).length := by
          simpa using hi
        cases fuel with
        | zero => simp [splits_loop] at hrest
        | succ f =>
          by_cases hg2 : dateLe (addMonths (addMonths c oos_m) (is_m + oos_m))
              train_end = true
          · have hexp2 : splits_loop train_end is_m oos_m (f + 1) (addMonths c oos_m) =
                ⟨addMonths c oos_m, subDay (addMonths (addMonths c oos_m) is_m),
                  addMonths (addMonths c oos_m) is_m,
                  subDay (addMonths (addMonths (addMonths c oos_m) is_m) oos_m)⟩ ::
                splits_loop train_end is_m oos_m f
                  (addMonths (addMonths c oos_m) oos_m) := by
              simp only [splits_loop]
              rw [if_pos hg2]
            rw [hexp2]
            simp only [List.getD_cons_succ, List.getD_cons_zero]
            have hkey : addMonths (addMonths c oos_m) is_m =
                addMonths (addMonths c is_m) oos_m := by
              rw [addMonths_addMonths c h28, addMonths_addMonths c h28,
                Nat.add_comm]
            have hD : ValidDate (addMonths (addMonths c is_m) oos_m) :=
              addMonths_valid (addMonths_valid hv is_m) oos_m
            refine ⟨?_, ?_, ?_⟩
            · rw [hkey, addDay_subDay hD]
            · rw [hkey]
              exact dateLt_subDay hD
            · rw [hkey]
              exact dateLt_addMonths (addMonths_valid hv is_m) hoos
          · rw [show splits_loop train_end is_m oos_m (f + 1) (addMonths c oos_m) = []
              by simp only [splits_loop]; rw [if_neg hg2]] at hrest
            simp at hrest
      | succ i =>
        simp only [List.getD_cons_succ]
        have hlen : i + 1 <
            (splits_loop train_end is_m oos_m fuel (addMonths c oos_m)).length := by
          simpa using hi
        exact splits_loop_adjacent train_end is_m oos_m hoos fuel (addMonths c oos_m)
          (addMonths_valid hv oos_m) (by rw [addMonths_day h28]; exact h28) i hlen
    · rw [show splits_loop train_end is_m oos_m (fuel + 1) c = [] by
        simp only [splits_loop]; rw [if_neg hg]] at hi
      simp at hi

/-- C6, amended.  For every valid start date whose day of month is at
most 28 and positive year counts, consecutive walk-forward splits have
exactly adjacent out-of-sample windows: the later oos window starts on
the day after the earlier one ends, hence strictly after it ends, and
the oos window starts strictly increase.  (When the start date is a
February 29, relativedelta day clamping can make consecutive oos
windows overlap by one day: see the counterexample.) -/
theorem create_walk_forward_splits_adjacent (start_date end_date : Date)
    (wf_config : WalkForwardConfig) (hv : ValidDate start_date)
    (h28 : start_date.day ≤ 28) (hoos : 1 ≤ wf_config.oos_years) (i : ℕ)
    (hi : i + 1 < (create_walk_forward_splits start_date end_date wf_config).length) :
    ((create_walk_forward_splits start_date end_date wf_config).getD (i+1)
        default).oos_start_date =
      addDay (((create_walk_forward_splits start_date end_date wf_config).getD i
        default).oos_end_date) ∧
    dateLt (((create_walk_forward_splits start_date end_date wf_config).getD i
        default).oos_end_date)
      (((create_walk_forward_splits start_date end_date wf_config).getD (i+1)
        default).oos_start_date) = true ∧
    dateLt (((create_walk_forward_splits start_date end_date wf_config).getD i
        default).oos_start_date)
      (((create_walk_forward_splits start_date end_date wf_config).getD (i+1)
        default).oos_start_date) = true := by
  unfold create_walk_forward_splits at hi ⊢
  exact splits_loop_adjacent _ _ _ (by omega) _ _ hv h28 i hi

theorem create_walk_forward_splits_adjacent_witness :
    ((create_walk_forward_splits ⟨2000, 1, 1⟩ ⟨2010, 1, 1⟩ ⟨2, 1, 1⟩).getD (0+1)
        default).oos_start_date =
      addDay (((create_walk_forward_splits ⟨2000, 1, 1⟩ ⟨2010, 1, 1⟩ ⟨2, 1, 1⟩).getD 0
        default).oos_end_date) ∧
    dateLt (((create_walk_forward_splits ⟨2000, 1, 1⟩ ⟨2010, 1, 1⟩ ⟨2, 1, 1⟩).getD 0
        default).oos_end_date)
      (((create_walk_forward_splits ⟨2000, 1, 1⟩ ⟨2010, 1, 1⟩ ⟨2, 1, 1⟩).getD (0+1)
        default).oos_start_date) = true ∧
    dateLt (((create_walk_forward_splits ⟨2000, 1, 1⟩ ⟨2010, 1, 1⟩ ⟨2, 1, 1⟩).getD 0
        default).oos_start_date)
      (((create_walk_forward_splits ⟨2000, 1, 1⟩ ⟨2010, 1, 1⟩ ⟨2, 1, 1⟩).getD (0+1)
        default).oos_start_date) = true :=
  create_walk_forward_splits_adjacent ⟨2000, 1, 1⟩ ⟨2010, 1, 1⟩ ⟨2, 1, 1⟩
    ⟨by decide, by decide, by decide, by decide, by decide⟩ (by decide) (by decide)
    0 (by decide)

/-- C6, counterexample to the claim as stated: starting the walk-forward
at February 29, 2096 with is_years 8, oos_years 4, holdout 1 and end
2114-01-01, the clamping of relativedelta month arithmetic at the
non-leap century year 2100 makes the second split's out-of-sample window
start on 2108-02-28, the very day the first split's out-of-sample window
ends — not strictly after it, and not on the day after it. -/
theorem create_walk_forward_splits_counterexample :
    (create_walk_forward_splits ⟨2096, 2, 29⟩ ⟨2114, 1, 1⟩ ⟨8, 4, 1⟩).length = 2 ∧
    ((create_walk_forward_splits ⟨2096, 2, 29⟩ ⟨2114, 1, 1⟩ ⟨8, 4, 1⟩).getD 1
        default).oos_start_date =
      ((create_walk_forward_splits ⟨2096, 2, 29⟩ ⟨2114, 1, 1⟩ ⟨8, 4, 1⟩).getD 0
        default).oos_end_date ∧
    dateLt (((create_walk_forward_splits ⟨2096, 2, 29⟩ ⟨2114, 1, 1⟩ ⟨8, 4, 1⟩).getD 0
        default).oos_end_date)
      (((create_walk_forward_splits ⟨2096, 2, 29⟩ ⟨2114, 1, 1⟩ ⟨8, 4, 1⟩).getD 1
        default).oos_start_date) = false := by
  refine ⟨by decide, by decide, by decide⟩

/-- C10, amended.  Pre-run configuration validation checks only the
date ordering (end after start, t0 strictly inside the data range) and
that is_years + oos_years is positive: it accepts configurations whose
parameter grid contains a non-negative k_low, whose max_hold is
non-positive, and whose oos_years or holdout_years taken alone is
non-positive.  A non-negative k_low is rejected only later, at detector
run time, when generate_signals raises ValueError. -/
theorem validate_config_claim (cfg : RawConfig) :
    (validate_config cfg = true ↔
      (cfg.data_start_date < cfg.data_end_date ∧
        cfg.data_start_date < cfg.run_t0 ∧ cfg.run_t0 < cfg.data_end_date ∧
        0 < cfg.wf_is_years + cfg.wf_oos_years)) ∧
    (∀ (gap_pct : List (Option ℚ)) (window : ℕ) (k_low : ℚ), 0 ≤ k_low →
      generate_signals gap_pct window k_low =
        .error "k_low threshold must be a negative value for this strategy.") := by
  constructor
  · simp [validate_config, and_assoc]
  · intro gap_pct window k_low hk
    simp [generate_signals, hk]

/-- C10, counterexample to the claim as stated: a configuration whose
parameter grid contains the non-negative k_low value 1, whose max_hold
is 0 (non-positive) and whose holdout_years is -1 (non-positive) still
passes _validate_config, because the validator only checks the dates
and the sum is_years + oos_years. -/
theorem validate_config_claim_counterexample :
    validate_config ⟨10, 0, 20, 2, 1, -1, [1], 0⟩ = true ∧
    (1 : ℚ) ∈ (⟨10, 0, 20, 2, 1, -1, [1], 0⟩ : RawConfig).detector_k_low_range ∧
    (0 : ℚ) ≤ 1 ∧
    (⟨10, 0, 20, 2, 1, -1, [1], 0⟩ : RawConfig).detector_max_hold ≤ 0 ∧
    (⟨10, 0, 20, 2, 1, -1, [1], 0⟩ : RawConfig).wf_holdout_years ≤ 0 := by
  refine ⟨by decide, by decide, by norm_num, by decide, by decide⟩

end PatternReco
